import Mathlib

/-!
Verification development for the sig trust-chain and policy-gate subsystem.

The definitions below are a shallow embedding of the TypeScript core
(src/core/hash.ts, content.ts, chain.ts, policy.ts, paths.ts, store.ts,
verify.ts, sign.ts, update.ts).  Filesystem state is modelled as explicit
maps from paths to stored records; I/O effects become state threading, and
thrown exceptions become `Except` results.  The SHA-256 digest primitive is
kept abstract as a section variable `sha256hex : String → String`, since
every property proved here depends only on it being a deterministic
function of the content string.
-/

deriving instance DecidableEq for Except

namespace Sig

/-- Tag a hex digest with its algorithm, as in hash.ts `formatHash`. -/
def formatHash (hex : String) : String := "sha256:" ++ hex

/-- The two provenance source kinds of types.ts `UpdateProvenance.sourceType`. -/
inductive SourceType where
  | signed_message
  | signed_template
deriving DecidableEq, Repr, Inhabited

/-- types.ts `UpdateProvenance`. -/
structure UpdateProvenance where
  sourceType : SourceType
  sourceId : Option String := none
  sourceIdentity : Option String := none
  sourceHash : Option String := none
  reason : String
deriving DecidableEq, Repr, Inhabited

/-- types.ts `ChainEntry`: one committed mutation in the update chain. -/
structure ChainEntry where
  hash : String
  previousHash : String
  signedBy : String
  signedAt : String
  contentLength : Nat
  provenance : UpdateProvenance
deriving DecidableEq, Repr, Inhabited

/-- Result shape of chain.ts `validateChain`. -/
structure ChainValidation where
  valid : Bool
  length : Nat
  error : Option String := none
deriving DecidableEq, Repr

/-- The message interpolated by chain.ts `validateChain` on a broken link. -/
def chainBrokenMessage (i : Nat) (expected got : String) : String :=
  "Chain broken at entry " ++ toString i ++ ": expected previousHash "
    ++ expected ++ ", got " ++ got

/-- The scan loop of chain.ts `validateChain`: starting at index `i` with
the entry at index `i - 1` in hand, find the first entry whose
`previousHash` differs from its predecessor's `hash`. -/
def findBreak : Nat → ChainEntry → List ChainEntry → Option (Nat × String × String)
  | _, _, [] => none
  | i, prev, e :: rest =>
    if e.previousHash ≠ prev.hash then some (i, prev.hash, e.previousHash)
    else findBreak (i + 1) e rest

/-- chain.ts `validateChain`, with the entry list read from the chain file
passed in directly. -/
def validateChain (entries : List ChainEntry) : ChainValidation :=
  match entries with
  | [] => { valid := true, length := 0 }
  | e0 :: rest =>
    match findBreak 1 e0 rest with
    | some (i, expected, got) =>
      { valid := false
        length := entries.length
        error := some (chainBrokenMessage i expected got) }
    | none => { valid := true, length := entries.length }

/-- Boolean form of the chain-linkage invariant: each entry after the first
has `previousHash` equal to its predecessor's `hash`. -/
def chainLinked : List ChainEntry → Bool
  | [] => true
  | [_] => true
  | a :: b :: rest => (b.previousHash = a.hash) && chainLinked (b :: rest)

/-- The m-th adjacent pair of the list `prev :: rest`: the entry at
position m of `rest` together with its predecessor. -/
def linkAt (prev : ChainEntry) (rest : List ChainEntry) : Nat → Option (ChainEntry × ChainEntry)
  | 0 =>
    match rest with
    | [] => none
    | e :: _ => some (prev, e)
  | m + 1 =>
    match rest with
    | [] => none
    | e :: rest2 => linkAt e rest2 m

/-- A violation of the linkage invariant at index `i` of the entry list:
the index is at least one and the entry there names a `previousHash`
different from its predecessor's `hash`. -/
def violAt (entries : List ChainEntry) (i : Nat) : Bool :=
  match entries.get? i, entries.get? (i - 1) with
  | some e, some p => decide (1 ≤ i) && decide (e.previousHash ≠ p.hash)
  | _, _ => false

/-- A concrete chain entry used in the worked examples of the chain and
update-chain properties. -/
def sampleEntry (h p : String) : ChainEntry :=
  { hash := h, previousHash := p, signedBy := "owner:adam"
    signedAt := "2024-01-01T00:00:00Z", contentLength := 4
    provenance := { sourceType := .signed_message, reason := "test" } }

/-- Entries with hashes aaa, bbb, ccc linked in sequence. -/
def sampleChainOk : List ChainEntry :=
  [sampleEntry "aaa" "genesis", sampleEntry "bbb" "aaa", sampleEntry "ccc" "bbb"]

/-- The same chain with the middle entry's previousHash replaced by an
unrelated value. -/
def sampleChainTampered : List ChainEntry :=
  [sampleEntry "aaa" "genesis", sampleEntry "bbb" "zzz", sampleEntry "ccc" "bbb"]

/-- Characters matched by an unescaped dot in a JavaScript regular
expression: any character other than a line terminator.  The filename glob
in policy.ts compiles the wildcard to a dot-star. -/
def dotChar (c : Char) : Bool :=
  c ≠ '\n' && c ≠ '\r' && c ≠ '\u2028' && c ≠ '\u2029'

/-- Full match of a filename against a glob in which a star stands for any
run of dot-matched characters, written with a fuel argument so that the
recursion is structural; every step consumes pattern or filename, so the
fuel supplied by `globMatch` below never runs out (`globMatchAux_congr`). -/
def globMatchAux : Nat → List Char → List Char → Bool
  | _, [], [] => true
  | _, [], _ :: _ => false
  | 0, _ :: _, _ => false
  | fuel + 1, c :: ps, s =>
    if c = '*' then
      globMatchAux fuel ps s ||
        (match s with
         | [] => false
         | d :: ds => dotChar d && globMatchAux fuel (c :: ps) ds)
    else
      match s with
      | [] => false
      | d :: ds => c = d && globMatchAux fuel ps ds

/-- The language of the regex built by policy.ts `matchesFilePattern` from
the filename part of the pattern: a star becomes a dot-star and all other
regex metacharacters are escaped.  (The source escapes every regex
metacharacter except the question-mark quantifier; a question mark is
treated as a literal here.) -/
def globMatch (p s : List Char) : Bool :=
  globMatchAux (p.length + s.length + 1) p s

/-- Whether a character occurs in a string, as the String method used by
policy.ts to detect a wildcard. -/
def strContainsChar (s : String) (c : Char) : Bool :=
  s.toList.contains c

/-- Split a character list on the path separator, in the manner of
String.splitOn with a one-character separator. -/
def splitSegs : List Char → List (List Char)
  | [] => [[]]
  | c :: cs =>
    if c = '/' then [] :: splitSegs cs
    else
      match splitSegs cs with
      | [] => [[c]]
      | seg :: segs => (c :: seg) :: segs

/-- Rejoin path segments with the separator. -/
def joinSegs : List (List Char) → List Char
  | [] => []
  | [seg] => seg
  | seg :: rest => seg ++ '/' :: joinSegs rest

/-- node:path `dirname` for the POSIX relative paths used as patterns and
artifact paths: strip any trailing separators, then everything after the
last separator; no separator yields the dot directory. -/
def dirnameStr (p : String) : String :=
  let cs := (p.toList.reverse.dropWhile (fun c => c = '/')).reverse
  if cs.isEmpty then
    if p.toList.any (fun c => c = '/') then "/" else "."
  else
    match splitSegs cs with
    | [] => "."
    | [_] => "."
    | parts =>
      let d := String.mk (joinSegs parts.dropLast)
      if d = "" then "/" else d

/-- The filename slice taken by policy.ts: the whole string when the
directory is the dot directory, otherwise everything after the directory
prefix and its separator. -/
def fileNamePart (dir s : String) : String :=
  if dir = "." then s else String.mk (s.toList.drop (dir.length + 1))

/-- policy.ts `matchesFilePattern`: a pattern without a wildcard matches by
string equality; a pattern with a wildcard matches only files in the same
directory, by globbing the filename part. -/
def matchesFilePattern (pattern filePath : String) : Bool :=
  if !(strContainsChar pattern '*') then pattern = filePath
  else
    let patternDir := dirnameStr pattern
    let fileDir := dirnameStr filePath
    if patternDir ≠ fileDir then false
    else
      let patternFilename := fileNamePart patternDir pattern
      let fileFilename := fileNamePart fileDir filePath
      globMatch patternFilename.toList fileFilename.toList

/-- types.ts `FilePolicy`; every field is optional in the configuration. -/
structure FilePolicy where
  mutable : Option Bool := none
  authorizedIdentities : Option (List String) := none
  requireSignedSource : Option Bool := none
  requireApproval : Option Bool := none
deriving DecidableEq, Repr, Inhabited

/-- policy.ts `DEFAULT_POLICY`. -/
def DEFAULT_POLICY : FilePolicy := { mutable := some false }

/-- The object spread of the default policy under a configured policy: the
configured fields win, and `mutable` is always populated. -/
def mergeDefault (p : FilePolicy) : FilePolicy :=
  { p with mutable := some (p.mutable.getD false) }

/-- The slice of config.json consumed by the core: the per-path policy
table (`files`), the default signing identity (`sign.identity`) and the
first configured template engine (`templates.engine`). -/
structure SigConfig where
  files : Option (List (String × FilePolicy)) := none
  signIdentity : Option String := none
  templatesEngine : Option String := none

/-- Exact-key lookup in the policy table, as the object index access in
policy.ts `resolveFilePolicy`. -/
def lookupPolicy (files : List (String × FilePolicy)) (key : String) : Option FilePolicy :=
  (files.find? (fun kv => kv.1 = key)).map (fun kv => kv.2)

/-- The wildcard loop of policy.ts `resolveFilePolicy`: scan the table in
entry order keeping the matching wildcard pattern of strictly greatest
length, the best length starting at minus one. -/
def globStep (filePath : String) (best : Option FilePolicy × Int)
    (kv : String × FilePolicy) : Option FilePolicy × Int :=
  if !(strContainsChar kv.1 '*') then best
  else if matchesFilePattern kv.1 filePath && ((kv.1.length : Int) > best.2) then
    (some kv.2, (kv.1.length : Int))
  else best

def globLoop (files : List (String × FilePolicy)) (filePath : String) :
    Option FilePolicy × Int :=
  files.foldl (globStep filePath) (none, -1)

/-- policy.ts `resolveFilePolicy`. -/
def resolveFilePolicy (config : SigConfig) (filePath : String) : FilePolicy :=
  match config.files with
  | none => DEFAULT_POLICY
  | some files =>
    match lookupPolicy files filePath with
    | some p => mergeDefault p
    | none =>
      match (globLoop files filePath).1 with
      | some p => mergeDefault p
      | none => DEFAULT_POLICY

/-- policy.ts `matchesIdentityPattern`: exact match, or the literal part
before the first star as an identity whose start must agree. -/
def matchesIdentityPattern (pattern identity : String) : Bool :=
  if !(strContainsChar pattern '*') then pattern = identity
  else
    (pattern.toList.takeWhile (fun c => c ≠ '*')).isPrefixOf identity.toList

/-- The invariant of the wildcard scan: either nothing seen so far is a
matching wildcard pattern and the accumulator still holds its initial
value, or the accumulator holds the policy of a seen matching wildcard
pattern whose length bounds every seen matching wildcard pattern. -/
def globAccOk (filePath : String) (seen : List (String × FilePolicy))
    (acc : Option FilePolicy × Int) : Prop :=
  (acc = (none, -1) ∧ ∀ pat pol, (pat, pol) ∈ seen → strContainsChar pat '*' = true →
      matchesFilePattern pat filePath = false)
  ∨ (∃ pat pol, (pat, pol) ∈ seen ∧ strContainsChar pat '*' = true ∧
      matchesFilePattern pat filePath = true ∧ acc = (some pol, (pat.length : Int)) ∧
      ∀ q qp, (q, qp) ∈ seen → strContainsChar q '*' = true →
        matchesFilePattern q filePath = true → (q.length : Int) ≤ (pat.length : Int))

/-- The policy table of the first precedence example in the specification:
a markdown wildcard made immutable next to an exactly named mutable file. -/
def mdConfig : SigConfig :=
  { files := some [("*.md", { mutable := some false }), ("soul.md", { mutable := some true })] }

/-- The policy table of the second precedence example: two wildcard
patterns of different lengths both matching text files. -/
def txtConfig : SigConfig :=
  { files := some [("*.txt", { mutable := some false }),
                   ("prompts/*.txt", { mutable := some true })] }

/-! ## Path handling (paths.ts and the node:path operations it uses) -/

/-- Whether a POSIX path is absolute. -/
def isAbsolute (p : String) : Bool :=
  match p.toList with
  | '/' :: _ => true
  | _ => false

/-- Prefix test on strings by character lists, as the String method used in
paths.ts. -/
def strStartsWith (s pre : String) : Bool :=
  pre.toList.isPrefixOf s.toList

/-- Whether one character list occurs contiguously inside another. -/
def charsInfix (pat : List Char) : List Char → Bool
  | [] => pat.isEmpty
  | c :: rest => pat.isPrefixOf (c :: rest) || charsInfix pat rest

/-- Substring test on strings by character lists, as the String `includes`
method used by the identifier validation in store.ts. -/
def strIncludes (s pat : String) : Bool :=
  charsInfix pat.toList s.toList

/-- Split a path string into its separator-delimited segments. -/
def pathSegs (s : String) : List String :=
  (splitSegs s.toList).map (fun cs => String.mk cs)

/-- Join strings with the path separator. -/
def intercalateSlash : List String → String
  | [] => ""
  | [s] => s
  | s :: rest => s ++ "/" ++ intercalateSlash rest

/-- One step of node:path normalization over a reversed segment stack:
empty and dot segments vanish, a dotdot segment pops a real segment, stays
stacked in a relative path that has already climbed out, and vanishes at
the root of an absolute path. -/
def normStep (isAbs : Bool) (acc : List String) (seg : String) : List String :=
  if seg = "" ∨ seg = "." then acc
  else if seg = ".." then
    match acc with
    | a :: rest => if a = ".." then seg :: acc else rest
    | [] => if isAbs then [] else [".."]
  else seg :: acc

/-- node:path segment normalization. -/
def normSegs (isAbs : Bool) (segs : List String) : List String :=
  (segs.foldl (normStep isAbs) []).reverse

/-- node:path `resolve` with an absolute base, as used throughout the
core: an absolute argument wins, otherwise the argument is appended to the
base, and the result is normalized. -/
def resolvePath (base p : String) : String :=
  let combined := if isAbsolute p then p else base ++ "/" ++ p
  "/" ++ intercalateSlash (normSegs true (pathSegs combined))

/-- Drop the longest common segment prefix of two segment lists. -/
def dropCommon : List String → List String → List String × List String
  | a :: as, b :: bs => if a = b then dropCommon as bs else (a :: as, b :: bs)
  | as, bs => (as, bs)

/-- node:path `relative` between two absolute paths: climb out of the
uncommon part of the base and descend into the uncommon part of the
target. -/
def relativePath (base target : String) : String :=
  let f := normSegs true (pathSegs base)
  let t := normSegs true (pathSegs target)
  let (fr, tr) := dropCommon f t
  intercalateSlash (fr.map (fun _ => "..") ++ tr)

/-- node:path `join`: concatenate the parts with separators and normalize,
keeping leading climbs of a relative result. -/
def joinPath (parts : List String) : String :=
  let abs := match parts with
    | p :: _ => isAbsolute p
    | [] => false
  let joined := intercalateSlash parts
  let s := intercalateSlash (normSegs abs (pathSegs joined))
  if abs then "/" ++ s else if s = "" then "." else s

/-- paths.ts `resolveContainedPath`: resolve the file path against the
project root and fail if the relative form escapes the root. -/
def resolveContainedPath (projectRoot filePath : String) : Except String String :=
  let absPath := resolvePath projectRoot filePath
  let relPath := relativePath projectRoot absPath
  if strStartsWith relPath ".." || resolvePath projectRoot relPath ≠ absPath then
    .error ("Path escapes project root: " ++ filePath)
  else
    .ok relPath

/-! ## Signature store paths and identifier validation (store.ts) -/

/-- store.ts `sigPath`: where the signature metadata for an artifact path
is stored, built with no validation of the artifact path. -/
def sigPath (sigDir filePath : String) : String :=
  joinPath [sigDir, "sigs", filePath ++ ".sig.json"]

/-- store.ts `contentPath`: where the signed content bytes are stored. -/
def contentPath (sigDir filePath : String) : String :=
  joinPath [sigDir, "sigs", filePath ++ ".sig.content"]

/-- chain.ts `chainPath`. -/
def chainPath (sigDir filePath : String) : String :=
  joinPath [sigDir, "chains", filePath ++ ".chain.jsonl"]

/-- store.ts `ensureValidId`, the identifier validation of the persisted
content store: empty identifiers and identifiers containing separators, a
dotdot, or a null byte are rejected. -/
def ensureValidId (id : String) : Except String Unit :=
  if id = "" then .error "Content ID cannot be empty"
  else if strIncludes id "/" || strIncludes id "\\" || strIncludes id ".."
      || strIncludes id "\x00" then
    .error ("Invalid content ID: " ++ id)
  else .ok ()

/-! ## Audit log (audit.ts) -/

/-- The event tags of types.ts `AuditEntry.event`; `verifyFail` embeds the
verify-fail tag. -/
inductive AuditEvent where
  | sign
  | verify
  | verifyFail
  | modify
  | delete
  | update
  | update_denied
deriving DecidableEq, Repr, Inhabited

/-- types.ts `AuditEntry`. -/
structure AuditEntry where
  ts : String
  event : AuditEvent
  file : String
  hash : Option String := none
  identity : Option String := none
  detail : Option String := none
  provenance : Option UpdateProvenance := none
deriving DecidableEq, Repr, Inhabited

/-- JavaScript string-or-default: an absent or empty string falls through
to the default, mirroring the short-circuit or chains in the source. -/
def jsOr (v : Option String) (d : String) : String :=
  match v with
  | some s => if s = "" then d else s
  | none => d

/-- JavaScript truthiness of an optional string. -/
def jsTruthy (v : Option String) : Bool :=
  match v with
  | some s => s ≠ ""
  | none => false

/-- Point update of a string-keyed map. -/
def setKey {α : Type} (m : String → α) (k : String) (v : α) : String → α :=
  fun x => if x = k then v else m x

/-! ## Content signing (content.ts) -/

/-- types.ts `ContentSignature`; metadata is a free-form string map. -/
structure ContentSignature where
  id : String
  hash : String
  algorithm : String
  signedBy : String
  signedAt : String
  contentLength : Nat
  metadata : Option (List (String × String)) := none
deriving DecidableEq, Repr, Inhabited

/-- types.ts `SignContentOptions`. -/
structure SignContentOptions where
  id : String
  identity : String
  metadata : Option (List (String × String)) := none
deriving DecidableEq, Repr

/-- types.ts `ContentVerifyResult`. -/
structure ContentVerifyResult where
  verified : Bool
  id : String
  content : Option String := none
  signature : Option ContentSignature := none
  error : Option String := none
deriving DecidableEq, Repr

/-- Outcome shape of content.ts `verifyContent`. -/
structure SimpleVerify where
  verified : Bool
  error : Option String := none
deriving DecidableEq, Repr

section Hashing

variable (sha256hex : String → String)

/-- The composition used everywhere in the source to digest content:
`formatHash(sha256(content))`. -/
def digestOf (content : String) : String :=
  formatHash (sha256hex content)

/-- content.ts `signContent`, with the issuance instant passed in for the
`new Date().toISOString()` call. -/
def signContent (content : String) (options : SignContentOptions) (now : String) :
    ContentSignature :=
  { id := options.id
    hash := digestOf sha256hex content
    algorithm := "sha256"
    signedBy := options.identity
    signedAt := now
    contentLength := content.utf8ByteSize
    metadata := options.metadata }

/-- content.ts `verifyContent`. -/
def verifyContent (content : String) (signature : ContentSignature) : SimpleVerify :=
  if digestOf sha256hex content ≠ signature.hash then
    { verified := false, error := some "Content hash mismatch" }
  else
    { verified := true }

/-- The two backing maps of the in-memory content.ts `ContentStore`. -/
structure ContentStore where
  signatures : String → Option ContentSignature
  contents : String → Option String

/-- content.ts `ContentStore.verify`. -/
def ContentStore.verify (store : ContentStore) (id : String) : ContentVerifyResult :=
  match store.signatures id with
  | none => { verified := false, id := id, error := some "No signature found for id" }
  | some signature =>
    match store.contents id with
    | none => { verified := false, id := id, error := some "No content found for id" }
    | some content =>
      let result := verifyContent sha256hex content signature
      if !result.verified then
        { verified := false, id := id, error := result.error }
      else
        { verified := true, id := id, content := some content, signature := some signature }

end Hashing

/-- The in-memory content store with no entries. -/
def emptyContentStore : ContentStore :=
  { signatures := fun _ => none, contents := fun _ => none }

/-- content.ts `ContentStore.sign`: overwrite both maps under the id. -/
def ContentStore.sign (sha256hex : String → String) (store : ContentStore)
    (content : String) (options : SignContentOptions) (now : String) :
    ContentSignature × ContentStore :=
  let signature := signContent sha256hex content options now
  (signature,
    { signatures := setKey store.signatures options.id (some signature)
      contents := setKey store.contents options.id (some content) })

/-! ## Persisted content store (store.ts `PersistentContentStore`) -/

/-- types.ts `PersistentSignOptions`: the identity may be omitted. -/
structure PersistentSignOptions where
  id : String
  identity : Option String := none
  metadata : Option (List (String × String)) := none
deriving DecidableEq, Repr

/-- A persisted ContentSignature metadata record as it parses from disk:
each field is present or not, mirroring the typeof checks in
`PersistentContentStore.load`. -/
structure PartialContentSig where
  id : Option String := none
  hash : Option String := none
  algorithm : Option String := none
  signedBy : Option String := none
  signedAt : Option String := none
  contentLength : Option Nat := none
  metadata : Option (List (String × String)) := none
deriving DecidableEq, Repr

/-- The state of a persisted metadata record: the file is absent, its
bytes fail to parse as JSON, or it parses into some shape. -/
inductive PCRaw where
  | absent
  | unreadable
  | parsed (p : PartialContentSig)
deriving DecidableEq, Repr

/-- The well-formed serialization of a ContentSignature, as written by
`PersistentContentStore.sign` and read back by its `load`. -/
def toPartial (cs : ContentSignature) : PartialContentSig :=
  { id := some cs.id, hash := some cs.hash, algorithm := some cs.algorithm
    signedBy := some cs.signedBy, signedAt := some cs.signedAt
    contentLength := some cs.contentLength, metadata := cs.metadata }

/-- State of a `PersistentContentStore`: the metadata records and content
records under the content directory, keyed by identifier, together with
the configured default identity (config.json `sign.identity`), the
environment identity (`USER` or `USERNAME`), and the audit log. -/
structure PCState where
  metas : String → PCRaw
  contents : String → Option String
  configIdentity : Option String
  envUser : Option String
  audit : List AuditEntry

/-- store.ts `defaultIdentity`: the environment user or the unknown
sentinel. -/
def pcDefaultIdentity (st : PCState) : String :=
  jsOr st.envUser "unknown"

/-- `PersistentContentStore.resolveIdentity`: the caller-supplied value,
then the configured identity, then the environment default. -/
def pcResolveIdentity (st : PCState) (options : PersistentSignOptions) : String :=
  jsOr options.identity (jsOr st.configIdentity (pcDefaultIdentity st))

/-- The shape check of `PersistentContentStore.load`: every required
field must be present and the algorithm must name sha256, otherwise the
record reads as nothing. -/
def pcLoadShape (p : PartialContentSig) : Option ContentSignature :=
  match p.id, p.hash, p.signedBy, p.signedAt, p.contentLength, p.algorithm with
  | some i, some h, some sb, some sa, some cl, some alg =>
    if alg = "sha256" then
      some { id := i, hash := h, algorithm := alg, signedBy := sb
             signedAt := sa, contentLength := cl, metadata := p.metadata }
    else none
  | _, _, _, _, _, _ => none

/-- The read-and-shape-check body of `PersistentContentStore.load`, after
identifier validation: an absent file, unparseable bytes, or a parsed
shape missing a required field or naming a different algorithm all
produce nothing. -/
def pcLoadPure (st : PCState) (id : String) : Option ContentSignature :=
  match st.metas id with
  | .absent => none
  | .unreadable => none
  | .parsed p => pcLoadShape p

/-- `PersistentContentStore.load`. -/
def pcLoad (st : PCState) (id : String) : Except String (Option ContentSignature) :=
  match ensureValidId id with
  | .error e => .error e
  | .ok _ => .ok (pcLoadPure st id)

/-- `PersistentContentStore.loadContent`. -/
def pcLoadContent (st : PCState) (id : String) : Except String (Option String) :=
  match ensureValidId id with
  | .error e => .error e
  | .ok _ => .ok (st.contents id)

/-- `PersistentContentStore.has`. -/
def pcHas (st : PCState) (id : String) : Except String Bool :=
  match ensureValidId id with
  | .error e => .error e
  | .ok _ =>
    match st.metas id with
    | .absent => .ok false
    | _ => .ok true

/-- `PersistentContentStore.delete`. -/
def pcDelete (st : PCState) (id : String) : Except String (Bool × PCState) :=
  match ensureValidId id with
  | .error e => .error e
  | .ok _ =>
    let hadSig := match st.metas id with
      | .absent => false
      | _ => true
    .ok (hadSig,
      { st with metas := setKey st.metas id .absent
                contents := setKey st.contents id none })

/-- `PersistentContentStore.logVerifyFailure`. -/
def pcLogVerifyFailure (st : PCState) (id reason : String) (detail : Option String)
    (now : String) : PCState :=
  { st with audit := st.audit ++
      [{ ts := now, event := .verifyFail, file := "content:" ++ id
         detail := some (if jsTruthy detail then detail.getD "" ++ ": " ++ reason else reason) }] }

section Hashing

variable (sha256hex : String → String)

/-- `PersistentContentStore.sign`: validate the identifier, resolve the
identity, issue the signature, write both records, and audit. -/
def pcSign (st : PCState) (content : String) (options : PersistentSignOptions)
    (now : String) : Except String (ContentSignature × PCState) :=
  match ensureValidId options.id with
  | .error e => .error e
  | .ok _ =>
    let identity := pcResolveIdentity st options
    let signature := signContent sha256hex content
      { id := options.id, identity := identity, metadata := options.metadata } now
    .ok (signature,
      { st with
          metas := setKey st.metas options.id (.parsed (toPartial signature))
          contents := setKey st.contents options.id (some content)
          audit := st.audit ++
            [{ ts := now, event := .sign, file := "content:" ++ options.id
               hash := some signature.hash, identity := some signature.signedBy }] })

/-- `PersistentContentStore.verify`: the optional second argument carries
the caller-supplied content to cross-check and an audit detail string. -/
def pcVerify (st : PCState) (id : String) (optContent : Option String)
    (detail : Option String) (now : String) : Except String (ContentVerifyResult × PCState) :=
  match ensureValidId id with
  | .error e => .error e
  | .ok _ =>
    match pcLoadPure st id with
    | none =>
      .ok ({ verified := false, id := id, error := some "No signature found for id" },
        pcLogVerifyFailure st id "No signature found for id" detail now)
    | some signature =>
      match st.contents id with
      | none =>
        .ok ({ verified := false, id := id, error := some "No content found for id" },
          pcLogVerifyFailure st id "No content found for id" detail now)
      | some storedContent =>
        let storedCheck := verifyContent sha256hex storedContent signature
        if !storedCheck.verified then
          let message := jsOr storedCheck.error "Stored content verification failed"
          .ok ({ verified := false, id := id, error := some message },
            pcLogVerifyFailure st id message detail now)
        else
          match optContent with
          | some c =>
            let inputCheck := verifyContent sha256hex c signature
            if !inputCheck.verified then
              let message := jsOr inputCheck.error "Content hash mismatch"
              .ok ({ verified := false, id := id, error := some message },
                pcLogVerifyFailure st id message detail now)
            else
              .ok ({ verified := true, id := id, content := some storedContent
                     signature := some signature },
                { st with audit := st.audit ++
                    [{ ts := now, event := .verify, file := "content:" ++ id
                       hash := some signature.hash
                       detail := if jsTruthy detail then detail else none }] })
          | none =>
            .ok ({ verified := true, id := id, content := some storedContent
                   signature := some signature },
              { st with audit := st.audit ++
                  [{ ts := now, event := .verify, file := "content:" ++ id
                     hash := some signature.hash
                     detail := if jsTruthy detail then detail else none }] })

/-- `PersistentContentStore.signIfChanged`: an existing signature over the
same digest is returned unchanged (restoring a missing content record),
anything else falls through to a fresh sign. -/
def pcSignIfChanged (st : PCState) (content : String) (options : PersistentSignOptions)
    (now : String) : Except String (ContentSignature × PCState) :=
  match ensureValidId options.id with
  | .error e => .error e
  | .ok _ =>
    match pcLoadPure st options.id with
    | some e =>
      if e.hash = digestOf sha256hex content then
        match st.contents options.id with
        | none =>
          .ok (e, { st with contents := setKey st.contents options.id (some content) })
        | some _ => .ok (e, st)
      else pcSign sha256hex st content options now
    | none => pcSign sha256hex st content options now

end Hashing

/-- A stand-in digest primitive for concrete examples: tagging the content
itself keeps the digest deterministic and collision-free, the only
properties any statement here relies on. -/
def identityHex : String → String := fun s => s

/-- A persisted content store with no records. -/
def emptyPCState : PCState :=
  { metas := fun _ => .absent, contents := fun _ => none
    configIdentity := none, envUser := none, audit := [] }

/-- A sample well-formed persisted signature for msg-1 over the content
hello under the stand-in digest. -/
def sampleSig : ContentSignature :=
  { id := "msg-1", hash := "sha256:hello", algorithm := "sha256"
    signedBy := "owner:adam", signedAt := "2024-01-01T00:00:00Z", contentLength := 5 }

/-- A persisted content store holding exactly the msg-1 record. -/
def samplePCState : PCState :=
  { metas := fun k => if k = "msg-1" then .parsed (toPartial sampleSig) else .absent
    contents := fun k => if k = "msg-1" then some "hello" else none
    configIdentity := none, envUser := none, audit := [] }

/-- Boolean form of the shape check in `PersistentContentStore.load`. -/
def shapeOk (p : PartialContentSig) : Bool :=
  p.id.isSome && p.hash.isSome && p.signedBy.isSome && p.signedAt.isSome
    && p.contentLength.isSome && (p.algorithm = some "sha256")

/-! ## Artifact world: signature store, verify, check, sign and the
authorization pipeline (store.ts, verify.ts, sign.ts, update.ts) -/

/-- types.ts `Signature`. -/
structure Signature where
  file : String
  hash : String
  algorithm : String
  signedBy : String
  signedAt : String
  contentLength : Nat
  templateEngine : Option String := none
deriving DecidableEq, Repr, Inhabited

/-- The state of a stored signature metadata file: absent, bytes on which
JSON.parse throws, bytes that parse to a falsy value (the literal null,
false, 0 or an empty string — loadSig performs no shape validation and
returns the parsed value untagged), or bytes whose parse is truthy, read
as a record of its fields (a truthy malformed object reads as a record
whose fields hold junk). -/
inductive StoredSig where
  | absent
  | corruptBytes
  | parsedNull
  | valid (s : Signature)
deriving DecidableEq, Repr, Inhabited

/-- The error tags of store.ts `LoadSigResult`. -/
inductive LoadError where
  | notFound
  | corrupted
deriving DecidableEq, Repr

/-- store.ts `LoadSigResult`. -/
structure LoadSigResult where
  signature : Option Signature
  error : Option LoadError := none
deriving DecidableEq, Repr

/-- The filesystem-backed state the core operates on, keyed by the
contained relative artifact path that the source embeds into each storage
path: the live project files, the signature store records, the per-file
update chains, the audit log, the loaded configuration, and the
environment identity (`USER` or `USERNAME` or the unknown sentinel). -/
structure World where
  config : SigConfig
  files : String → Option String
  sigs : String → StoredSig
  signedContents : String → Option String
  chains : String → List ChainEntry
  audit : List AuditEntry
  envIdentity : String

/-- store.ts `loadSig`: a missing record and a record whose bytes throw in
JSON.parse give no signature with distinct error tags, while bytes that
parse to a falsy value are returned untagged as a null signature. -/
def loadSig (w : World) (filePath : String) : LoadSigResult :=
  match w.sigs filePath with
  | .absent => { signature := none, error := some .notFound }
  | .corruptBytes => { signature := none, error := some .corrupted }
  | .parsedNull => { signature := none }
  | .valid s => { signature := some s }

/-- store.ts `loadSignedContent`. -/
def loadSignedContent (w : World) (filePath : String) : Option String :=
  w.signedContents filePath

/-- store.ts `storeSig`: write the metadata and the exact signed bytes as
two linked records. -/
def storeSigW (w : World) (sig : Signature) (content : String) : World :=
  { w with
      sigs := setKey w.sigs sig.file (.valid sig)
      signedContents := setKey w.signedContents sig.file (some content) }

/-- chain.ts `appendChainEntry`. -/
def appendChainEntryW (w : World) (filePath : String) (entry : ChainEntry) : World :=
  { w with chains := setKey w.chains filePath (w.chains filePath ++ [entry]) }

/-- chain.ts `readChain`. -/
def readChain (w : World) (filePath : String) : List ChainEntry :=
  w.chains filePath

/-- chain.ts `getChainHead`. -/
def getChainHead (w : World) (filePath : String) : Option ChainEntry :=
  (readChain w filePath).getLast?

/-- audit.ts `logEvent`: append one record to the audit log. -/
def logEventW (w : World) (e : AuditEntry) : World :=
  { w with audit := w.audit ++ [e] }

/-- The status values of types.ts `CheckResult`. -/
inductive CheckStatus where
  | signed
  | modified
  | unsigned
  | corrupted
deriving DecidableEq, Repr

/-- types.ts `CheckResult`. -/
structure CheckResult where
  file : String
  status : CheckStatus
  signature : Option Signature := none
deriving DecidableEq, Repr

/-- The chain summary attached to a verify result. -/
structure ChainSummary where
  length : Nat
  valid : Bool
  lastUpdatedBy : Option String := none
  lastUpdatedAt : Option String := none
deriving DecidableEq, Repr

/-- types.ts `VerifyResult`.  The placeholder list extracted for display
purposes is outside the trust core and not modelled. -/
structure VerifyResult where
  verified : Bool
  file : String
  template : Option String := none
  hash : Option String := none
  signedBy : Option String := none
  signedAt : Option String := none
  error : Option String := none
  chain : Option ChainSummary := none
deriving DecidableEq, Repr

/-- Comma-space join, as Array.join on the authorized identity list. -/
def joinComma : List String → String
  | [] => ""
  | [s] => s
  | s :: rest => s ++ ", " ++ joinComma rest

section Hashing

variable (sha256hex : String → String)

/-- verify.ts `checkFile`: distinguishes signed, modified, unsigned and
corrupted without throwing. -/
def checkFile (w : World) (projectRoot filePath : String) : Except String CheckResult :=
  match resolveContainedPath projectRoot filePath with
  | .error e => .error e
  | .ok rel =>
    let r := loadSig w rel
    match r.signature with
    | none =>
      .ok { file := rel
            status := if r.error = some .corrupted then .corrupted else .unsigned }
    | some sig =>
      match w.files rel with
      | none => .ok { file := rel, status := .modified, signature := some sig }
      | some content =>
        if digestOf sha256hex content = sig.hash then
          .ok { file := rel, status := .signed, signature := some sig }
        else
          .ok { file := rel, status := .modified, signature := some sig }

/-- verify.ts `verifyFile`: load the signature, read the live file, compare
digests, audit the outcome, and attach the signed content and a chain
summary on success. -/
def verifyFile (w : World) (projectRoot filePath : String) (now : String) :
    Except String (VerifyResult × World) :=
  match resolveContainedPath projectRoot filePath with
  | .error e => .error e
  | .ok rel =>
    let r := loadSig w rel
    match r.signature with
    | none =>
      let detail := if r.error = some .corrupted then
          "Signature file is corrupted or tampered with"
        else "No signature found"
      .ok ({ verified := false, file := rel, error := some detail },
        logEventW w { ts := now, event := .verifyFail, file := rel, detail := some detail })
    | some sig =>
      match w.files rel with
      | none =>
        .ok ({ verified := false, file := rel, error := some "File not found" },
          logEventW w
            { ts := now, event := .verifyFail, file := rel, detail := some "File not found" })
      | some content =>
        let currentHash := digestOf sha256hex content
        let verified : Bool := currentHash = sig.hash
        let w1 := if verified then
            logEventW w { ts := now, event := .verify, file := rel, hash := some currentHash }
          else
            logEventW w
              { ts := now, event := .verifyFail, file := rel, hash := some currentHash
                detail := some ("Expected " ++ sig.hash ++ ", got " ++ currentHash) }
        let signedContent := if verified then
            some ((loadSignedContent w rel).getD content)
          else none
        let cv := validateChain (w.chains rel)
        let chain : Option ChainSummary := if cv.length > 0 then
            some { length := cv.length, valid := cv.valid
                   lastUpdatedBy := (getChainHead w rel).map ChainEntry.signedBy
                   lastUpdatedAt := (getChainHead w rel).map ChainEntry.signedAt }
          else none
        .ok ({ verified := verified, file := rel, template := signedContent
               hash := some currentHash, signedBy := some sig.signedBy
               signedAt := some sig.signedAt
               error := if verified then none else some "Content has been modified since signing"
               chain := chain }, w1)

/-- sign.ts `signFile`: read the live file, issue a signature over its
exact bytes, store signature and content, and audit. -/
def signFile (w : World) (projectRoot filePath : String)
    (identityOpt engineOpt : Option String) (now : String) :
    Except String (Signature × World) :=
  match resolveContainedPath projectRoot filePath with
  | .error e => .error e
  | .ok rel =>
    match w.files rel with
    | none => .error ("File not found: " ++ rel)
    | some content =>
      let identity := jsOr identityOpt (jsOr w.config.signIdentity w.envIdentity)
      let engineName := if jsTruthy engineOpt then engineOpt else w.config.templatesEngine
      let sig : Signature :=
        { file := rel, hash := digestOf sha256hex content, algorithm := "sha256"
          signedBy := identity, signedAt := now, contentLength := content.utf8ByteSize
          templateEngine := if jsTruthy engineName then engineName else none }
      let w1 := storeSigW w sig content
      .ok (sig, logEventW w1
        { ts := now, event := .sign, file := rel, hash := some sig.hash
          identity := some sig.signedBy })

end Hashing

/-- The denial codes of types.ts `UpdateResult`. -/
inductive DenialCode where
  | not_mutable
  | not_signed
  | unauthorized_identity
  | unsigned_source
  | source_verification_failed
deriving DecidableEq, Repr

/-- The denial payload of types.ts `UpdateResult`. -/
structure Denial where
  code : DenialCode
  reason : String
deriving DecidableEq, Repr

/-- types.ts `UpdateResult`. -/
structure UpdateResult where
  approved : Bool
  file : String
  hash : Option String := none
  previousHash : Option String := none
  chainLength : Option Nat := none
  error : Option String := none
  denial : Option Denial := none
deriving DecidableEq, Repr

/-- types.ts `UpdateAndSignOptions`. -/
structure UpdateAndSignOptions where
  identity : String
  provenance : UpdateProvenance
  contentStore : Option ContentStore := none

/-- The denial pattern repeated through update.ts: audit the denied
attempt with the provenance attached, then return the denial result. -/
def denyUpdate (w : World) (rel identity : String) (prov : UpdateProvenance)
    (now detail : String) (code : DenialCode) (reason : String) : UpdateResult × World :=
  ({ approved := false, file := rel, denial := some { code := code, reason := reason } },
    logEventW w
      { ts := now, event := .update_denied, file := rel, identity := some identity
        detail := some detail, provenance := some prov })

section Hashing

variable (sha256hex : String → String)

/-- The ChainEntry built by the commit tail of update.ts `updateAndSign`. -/
def commitEntry (newContent identity : String) (prov : UpdateProvenance)
    (now previousHash : String) : ChainEntry :=
  { hash := digestOf sha256hex newContent, previousHash := previousHash
    signedBy := identity, signedAt := now
    contentLength := newContent.utf8ByteSize, provenance := prov }

/-- The replacement head Signature built by the commit tail. -/
def commitSig (rel newContent identity now : String) (engine : Option String) : Signature :=
  { file := rel, hash := digestOf sha256hex newContent, algorithm := "sha256"
    signedBy := identity, signedAt := now
    contentLength := newContent.utf8ByteSize, templateEngine := engine }

/-- The commit tail of update.ts `updateAndSign`: write the file, move the
signature head, append the chain entry, audit the update, and report the
new digest, previous digest and chain length. -/
def commitUpdate (w : World) (rel : String) (existingSig : Signature)
    (newContent identity : String) (prov : UpdateProvenance) (now : String) :
    UpdateResult × World :=
  let chainEntry := commitEntry sha256hex newContent identity prov now existingSig.hash
  let w1 := { w with files := setKey w.files rel (some newContent) }
  let newSig := commitSig sha256hex rel newContent identity now existingSig.templateEngine
  let w2 := storeSigW w1 newSig newContent
  let w3 := appendChainEntryW w2 rel chainEntry
  let w4 := logEventW w3
    { ts := now, event := .update, file := rel, hash := some chainEntry.hash
      identity := some identity, detail := some prov.reason, provenance := some prov }
  ({ approved := true, file := rel, hash := some chainEntry.hash
     previousHash := some existingSig.hash
     chainLength := some (readChain w3 rel).length }, w4)

/-- Stage four and five of update.ts `updateAndSign`: provenance source
validation, then the commit. -/
def updateProvenanceStage (w : World) (projectRoot rel newContent : String)
    (options : UpdateAndSignOptions) (existingSig : Signature) (policy : FilePolicy)
    (now : String) : Except String (UpdateResult × World) :=
  if policy.requireSignedSource.getD false then
    match options.provenance.sourceType with
    | .signed_message =>
      if !(jsTruthy options.provenance.sourceId) then
        .ok (denyUpdate w rel options.identity options.provenance now
          "No sourceId provided for signed_message provenance" .unsigned_source
          "sourceId is required when sourceType is signed_message")
      else
        match options.contentStore with
        | some store =>
          if !(ContentStore.verify sha256hex store
              (options.provenance.sourceId.getD "")).verified then
            .ok (denyUpdate w rel options.identity options.provenance now
              ("ContentStore verification failed for sourceId: "
                ++ options.provenance.sourceId.getD "")
              .source_verification_failed
              ("Source message \"" ++ options.provenance.sourceId.getD ""
                ++ "\" could not be verified"))
          else
            .ok (commitUpdate sha256hex w rel existingSig newContent options.identity
              options.provenance now)
        | none =>
          .ok (commitUpdate sha256hex w rel existingSig newContent options.identity
            options.provenance now)
    | .signed_template =>
      if !(jsTruthy options.provenance.sourceId) then
        .ok (denyUpdate w rel options.identity options.provenance now
          "No sourceId provided for signed_template provenance" .unsigned_source
          "sourceId is required when sourceType is signed_template")
      else
        match verifyFile sha256hex w projectRoot (options.provenance.sourceId.getD "") now with
        | .error e => .error e
        | .ok (templateResult, w1) =>
          if !templateResult.verified then
            .ok (denyUpdate w1 rel options.identity options.provenance now
              ("Template verification failed for sourceId: "
                ++ options.provenance.sourceId.getD "")
              .source_verification_failed
              ("Source template \"" ++ options.provenance.sourceId.getD ""
                ++ "\" could not be verified"))
          else
            .ok (commitUpdate sha256hex w1 rel existingSig newContent options.identity
              options.provenance now)
  else
    .ok (commitUpdate sha256hex w rel existingSig newContent options.identity
      options.provenance now)

/-- update.ts `updateAndSign`: the five-stage sequential authorization
gate, then the commit. -/
def updateAndSign (w : World) (projectRoot filePath newContent : String)
    (options : UpdateAndSignOptions) (now : String) :
    Except String (UpdateResult × World) :=
  match resolveContainedPath projectRoot filePath with
  | .error e => .error e
  | .ok rel =>
    let policy := resolveFilePolicy w.config rel
    if !(policy.mutable.getD false) then
      .ok (denyUpdate w rel options.identity options.provenance now
        "File is not mutable" .not_mutable "File policy does not allow mutations")
    else
      match (loadSig w rel).signature with
      | none =>
        .ok (denyUpdate w rel options.identity options.provenance now
          "File has no existing signature" .not_signed
          "File must be initially signed via `sig sign` before it can be updated")
      | some existingSig =>
        match policy.authorizedIdentities with
        | some l =>
          if l.length > 0 &&
              !(l.any (fun pattern => matchesIdentityPattern pattern options.identity)) then
            .ok (denyUpdate w rel options.identity options.provenance now
              ("Identity not authorized. Allowed: " ++ joinComma l) .unauthorized_identity
              ("Identity \"" ++ options.identity ++ "\" is not authorized to update this file"))
          else
            updateProvenanceStage sha256hex w projectRoot rel newContent options existingSig
              policy now
        | none =>
          updateProvenanceStage sha256hex w projectRoot rel newContent options existingSig
            policy now

end Hashing

/-- A world with no signatures, chains or audit records over the given
configuration and project files. -/
def initialWorld (config : SigConfig) (files : String → Option String) : World :=
  { config := config, files := files, sigs := fun _ => .absent
    signedContents := fun _ => none, chains := fun _ => [], audit := []
    envIdentity := "unknown" }

/-- The stage-three condition of update.ts: a declared non-empty
authorized identity list none of whose patterns matches the caller. -/
def stage3Fails (policy : FilePolicy) (identity : String) : Bool :=
  match policy.authorizedIdentities with
  | some l => l.length > 0 && !(l.any (fun pattern => matchesIdentityPattern pattern identity))
  | none => false

/-- A configuration whose soul.md policy is immutable yet declares
authorized identities and a signed-source requirement. -/
def c1Config : SigConfig :=
  { files := some [("soul.md",
      { mutable := some false, authorizedIdentities := some ["owner:*"]
        requireSignedSource := some true })] }

/-- A world over that configuration whose soul.md is present but never
signed. -/
def c1World : World :=
  initialWorld c1Config (fun p => if p = "soul.md" then some "old" else none)

/-- The denial result of the C1 worked scenario. -/
def c6DenyResult : UpdateResult :=
  { approved := false, file := "soul.md"
    denial := some { code := .not_mutable, reason := "File policy does not allow mutations" } }

/-- A configuration whose soul.md is mutable by the owner with a
signed-source requirement. -/
def c2Config : SigConfig :=
  { files := some [("soul.md",
      { mutable := some true, authorizedIdentities := some ["owner:*"]
        requireSignedSource := some true })] }

/-- A world over that configuration whose soul.md has been signed. -/
def c2World : World :=
  { initialWorld c2Config (fun p => if p = "soul.md" then some "old" else none) with
      sigs := fun p => if p = "soul.md" then
          .valid { file := "soul.md", hash := "sha256:old", algorithm := "sha256"
                   signedBy := "owner:adam", signedAt := "t0", contentLength := 3 }
        else .absent
      signedContents := fun p => if p = "soul.md" then some "old" else none }

/-! ## Closed runs of sign and update operations (C4 machinery) -/

/-- One externally invoked operation of the closed system: a sign of an
artifact path, or a gated update. -/
inductive Op where
  | signOp (filePath : String) (identityOpt engineOpt : Option String) (now : String)
  | updateOp (filePath newContent : String) (options : UpdateAndSignOptions) (now : String)

/-- The per-artifact history events a run records: the signature stored by
a successful sign, or the chain entry appended by an approved update. -/
inductive TraceEvt where
  | signed (s : Signature)
  | updated (e : ChainEntry)
deriving DecidableEq, Repr

/-- Whether a trace event is a sign. -/
def isSignedEvt : TraceEvt → Bool
  | .signed _ => true
  | .updated _ => false

/-- The chain entries among a trace, in order. -/
def updatesOf : List TraceEvt → List ChainEntry
  | [] => []
  | .updated e :: rest => e :: updatesOf rest
  | .signed _ :: rest => updatesOf rest

/-- The events of a combined trace concerning one artifact. -/
def traceFor (a : String) (tr : List (String × TraceEvt)) : List TraceEvt :=
  (tr.filter (fun pe => pe.1 = a)).map (fun pe => pe.2)

section Hashing

variable (sha256hex : String → String)

/-- Apply one operation to the world; a thrown error leaves the world
unchanged, since every throwing path in the source precedes its first
write.  A successful sign or an approved update also emits the
corresponding trace event under the resolved artifact path. -/
def applyOp (root : String) (w : World) (op : Op) : World × List (String × TraceEvt) :=
  match op with
  | .signOp fp idOpt engOpt now =>
    match signFile sha256hex w root fp idOpt engOpt now with
    | .error _ => (w, [])
    | .ok (sig, w') => (w', [(sig.file, .signed sig)])
  | .updateOp fp nc options now =>
    match updateAndSign sha256hex w root fp nc options now with
    | .error _ => (w, [])
    | .ok (res, w') =>
      if res.approved then
        match (w'.chains res.file).getLast? with
        | some e => (w', [(res.file, .updated e)])
        | none => (w', [])
      else (w', [])

/-- Run a list of operations left to right, accumulating the trace. -/
def runOps (root : String) (w : World) : List Op → World × List (String × TraceEvt)
  | [] => (w, [])
  | op :: ops =>
    let step := applyOp sha256hex root w op
    let rest := runOps root step.1 ops
    (rest.1, step.2 ++ rest.2)

end Hashing

/-- History wellformedness of one artifact's trace: the chain entry of the
first approved update extends the digest of the most recent prior sign. -/
def traceWf (τ : List TraceEvt) : Prop :=
  ∀ pre e post, τ = pre ++ .updated e :: post →
    (∀ evt ∈ pre, isSignedEvt evt = true) →
    ∃ s pre2, pre = pre2 ++ [.signed s] ∧ e.previousHash = s.hash

/-- The run invariant tying one artifact's stores to its history: the
ledger holds exactly the approved updates in order, its links hold, the
head signature agrees with the last event's digest and with the live file,
and the history is wellformed. -/
structure ArtifactInv (sha256hex : String → String) (w : World) (a : String)
    (τ : List TraceEvt) : Prop where
  ledger : w.chains a = updatesOf τ
  linked : chainLinked (w.chains a) = true
  sigState :
    match τ.getLast? with
    | none => w.sigs a = .absent
    | some (.signed s) => w.sigs a = .valid s ∧
        ∃ c, w.files a = some c ∧ digestOf sha256hex c = s.hash
    | some (.updated e) => (∃ s, w.sigs a = .valid s ∧ s.hash = e.hash) ∧
        ∃ c, w.files a = some c ∧ digestOf sha256hex c = e.hash
  headMatch : ∀ (e : ChainEntry), (w.chains a).getLast? = some e →
    ∃ s, w.sigs a = .valid s ∧ s.hash = e.hash
  wf : traceWf τ

/-- The soul.md-mutable configuration of the C4 worked run. -/
def c4Config : SigConfig :=
  { files := some [("soul.md", { mutable := some true })] }

/-- The initial files of the C4 worked run. -/
def c4Files : String → Option String := fun p => if p = "soul.md" then some "v1" else none

/-- The C4 worked run: sign soul.md, then submit one approvable update. -/
def c4Ops : List Op :=
  [.signOp "soul.md" (some "owner:adam") none "t0",
   .updateOp "soul.md" "v2"
     { identity := "owner:adam"
       provenance := { sourceType := .signed_message, sourceId := some "m", reason := "r" } }
     "t1"]

/-- The world and trace produced by the C4 worked run. -/
def c4Run : World × List (String × TraceEvt) :=
  runOps identityHex "/proj" (initialWorld c4Config c4Files) c4Ops

/-- Project files shared by the C8 counterexample worlds: soul.md present. -/
def c8Files : String → Option String := fun p => if p = "soul.md" then some "old" else none

/-- A world whose soul.md signature record holds bytes that JSON-parse to
null: a record present on disk yet carrying no valid signature metadata. -/
def c8NullWorld : World :=
  { initialWorld { files := none } c8Files with
      sigs := fun p => if p = "soul.md" then .parsedNull else .absent }

/-- The same world with no signature record at all for soul.md. -/
def c8AbsentWorld : World :=
  initialWorld { files := none } c8Files

/-! ## Theorems -/

theorem linkAt_eq_get? (rest : List ChainEntry) :
    ∀ (prev : ChainEntry) (m : Nat),
      linkAt prev rest m =
        match rest.get? m, (prev :: rest).get? m with
        | some e, some p => some (p, e)
        | _, _ => none := by
  induction rest with
  | nil => intro prev m; cases m <;> simp [linkAt]
  | cons e rest2 ih =>
    intro prev m
    cases m with
    | zero => simp [linkAt]
    | succ m => simpa [linkAt] using ih e m

theorem findBreak_none_of_linked (rest : List ChainEntry) :
    ∀ (prev : ChainEntry) (k : Nat),
      chainLinked (prev :: rest) = true → findBreak k prev rest = none := by
  induction rest with
  | nil => intro prev k _; rfl
  | cons e rest2 ih =>
    intro prev k h
    simp only [chainLinked, Bool.and_eq_true, decide_eq_true_eq] at h
    simp only [findBreak, h.1]
    rw [if_neg (by simp)]
    exact ih e (k + 1) h.2

theorem findBreak_at_first_viol (rest : List ChainEntry) :
    ∀ (prev : ChainEntry) (k m : Nat) (p e : ChainEntry),
      linkAt prev rest m = some (p, e) →
      e.previousHash ≠ p.hash →
      (∀ j q f, j < m → linkAt prev rest j = some (q, f) → f.previousHash = q.hash) →
      findBreak k prev rest = some (k + m, p.hash, e.previousHash) := by
  induction rest with
  | nil => intro prev k m p e h; cases m <;> simp [linkAt] at h
  | cons e0 rest2 ih =>
    intro prev k m p e hlink hne hgood
    cases m with
    | zero =>
      simp only [linkAt] at hlink
      simp only [Option.some.injEq, Prod.mk.injEq] at hlink
      obtain ⟨rfl, rfl⟩ := hlink
      simp [findBreak, hne]
    | succ m =>
      have h0 : e0.previousHash = prev.hash := by
        have := hgood 0 prev e0 (Nat.succ_pos m) (by simp [linkAt])
        exact this
      simp only [findBreak, h0]
      rw [if_neg (by simp [h0])]
      have hrec := ih e0 (k + 1) m p e (by simpa [linkAt] using hlink) hne
        (fun j q f hj hl => hgood (j + 1) q f (Nat.succ_lt_succ hj) (by simpa [linkAt] using hl))
      have hk : k + 1 + m = k + (m + 1) := by omega
      rw [hrec, hk]

theorem chainLinked_of_no_viol (rest : List ChainEntry) :
    ∀ (prev : ChainEntry),
      (∀ i, violAt (prev :: rest) i = false) → chainLinked (prev :: rest) = true := by
  induction rest with
  | nil => intro prev _; rfl
  | cons e rest2 ih =>
    intro prev h
    simp only [chainLinked, Bool.and_eq_true, decide_eq_true_eq]
    constructor
    · have h1 := h 1
      simp [violAt] at h1
      exact h1
    · exact ih e (fun i => by
        have h2 := h (i + 1)
        cases i with
        | zero => simp [violAt]
        | succ i =>
          simp only [violAt] at h2 ⊢
          simpa using h2)

theorem validateChain_valid_of_linked (entries : List ChainEntry)
    (h : chainLinked entries = true) :
    validateChain entries = { valid := true, length := entries.length, error := none } := by
  cases entries with
  | nil => simp [validateChain]
  | cons e0 rest =>
    simp [validateChain, findBreak_none_of_linked rest e0 1 h]

theorem validateChain_first_break (entries : List ChainEntry) (i : Nat) (e p : ChainEntry)
    (hi : entries.get? i = some e) (hp : entries.get? (i - 1) = some p)
    (h1 : 1 ≤ i) (hne : e.previousHash ≠ p.hash)
    (hfirst : ∀ j, j < i → violAt entries j = false) :
    validateChain entries =
      { valid := false, length := entries.length
        error := some (chainBrokenMessage i p.hash e.previousHash) } := by
  cases entries with
  | nil => simp at hi
  | cons e0 rest =>
    obtain ⟨m, rfl⟩ : ∃ m, i = m + 1 := ⟨i - 1, by omega⟩
    have hrest : rest.get? m = some e := by simpa using hi
    have hpred : (e0 :: rest).get? m = some p := by simpa using hp
    have hlink : linkAt e0 rest m = some (p, e) := by
      rw [linkAt_eq_get?, hrest, hpred]
    have hgood : ∀ j q f, j < m → linkAt e0 rest j = some (q, f) →
        f.previousHash = q.hash := by
      intro j q f hj hl
      rw [linkAt_eq_get?] at hl
      cases hf : rest.get? j with
      | none => rw [hf] at hl; simp at hl
      | some f' =>
        cases hq : (e0 :: rest).get? j with
        | none => rw [hf, hq] at hl; simp at hl
        | some q' =>
          rw [hf, hq] at hl
          simp only [Option.some.injEq, Prod.mk.injEq] at hl
          obtain ⟨rfl, rfl⟩ := hl
          have hv := hfirst (j + 1) (by omega)
          simp only [violAt] at hv
          have hj1 : (e0 :: rest).get? (j + 1) = some f' := by simpa using hf
          have hj0 : (e0 :: rest).get? (j + 1 - 1) = some q' := by simpa using hq
          rw [hj1, hj0] at hv
          simpa using hv
    have hfb := findBreak_at_first_viol rest e0 1 m p e hlink hne hgood
    have hm1 : 1 + m = m + 1 := by omega
    rw [hm1] at hfb
    simp [validateChain, hfb]

/-- C3: validateChain returns valid with length 0 on an empty chain; on a
non-empty chain it walks entries in insertion order and reports invalid at
the first index whose previousHash differs from the predecessor's hash,
naming both mismatched hash values, while a chain with no violation is
valid with length equal to the number of entries; concretely, hashes
aaa, bbb, ccc linked in sequence validate as valid length 3, and replacing
the middle entry's previousHash with an unrelated value reports invalid at
index 1. -/
theorem validateChain_c3 :
    (validateChain [] = { valid := true, length := 0, error := none })
    ∧ (∀ entries : List ChainEntry, (∀ i, violAt entries i = false) →
        validateChain entries = { valid := true, length := entries.length, error := none })
    ∧ (∀ (entries : List ChainEntry) (i : Nat) (e p : ChainEntry),
        entries.get? i = some e → entries.get? (i - 1) = some p → 1 ≤ i →
        e.previousHash ≠ p.hash →
        (∀ j, j < i → violAt entries j = false) →
        validateChain entries =
          { valid := false, length := entries.length
            error := some (chainBrokenMessage i p.hash e.previousHash) })
    ∧ validateChain sampleChainOk = { valid := true, length := 3, error := none }
    ∧ validateChain sampleChainTampered =
        { valid := false, length := 3
          error := some (chainBrokenMessage 1 "aaa" "zzz") } := by
  refine ⟨by simp [validateChain], ?_, ?_, by decide, by decide⟩
  · intro entries hno
    cases entries with
    | nil => simp [validateChain]
    | cons e0 rest =>
      exact validateChain_valid_of_linked _ (chainLinked_of_no_viol rest e0 hno)
  · intro entries i e p hi hp h1 hne hfirst
    exact validateChain_first_break entries i e p hi hp h1 hne hfirst

/-- Witness for C3: the third arm applied to the tampered sample chain at
index 1, every hypothesis discharged by computation. -/
theorem validateChain_c3_witness :
    validateChain sampleChainTampered =
      { valid := false, length := 3
        error := some (chainBrokenMessage 1 "aaa" "zzz") } := by
  have h := validateChain_c3.2.2.1 sampleChainTampered 1
    (sampleEntry "bbb" "zzz") (sampleEntry "aaa" "genesis")
    (by decide) (by decide) (by decide) (by decide)
    (fun j hj => by
      have hj0 : j = 0 := by omega
      subst hj0
      decide)
  simpa using h

/-- The fuel argument of `globMatchAux` is irrelevant as long as it
exceeds the combined length of pattern and filename. -/
theorem globMatchAux_congr :
    ∀ (n : Nat), ∀ (m : Nat) (p s : List Char),
      p.length + s.length < n → p.length + s.length < m →
      globMatchAux n p s = globMatchAux m p s := by
  intro n
  induction n with
  | zero => intro m p s hn _; omega
  | succ n ih =>
    intro m p s hn hm
    match p, s with
    | [], [] =>
      cases m with
      | zero => omega
      | succ m => rfl
    | [], _ :: _ =>
      cases m with
      | zero => omega
      | succ m => rfl
    | c :: ps, s =>
      cases m with
      | zero => simp at hm
      | succ m =>
        simp only [globMatchAux]
        cases s with
        | nil =>
          by_cases hc : c = '*'
          · subst hc
            have h1 := ih m ps [] (by simp at hn ⊢; omega) (by simp at hm ⊢; omega)
            simp [h1]
          · simp [hc]
        | cons d ds =>
          by_cases hc : c = '*'
          · subst hc
            have h1 := ih m ps (d :: ds) (by simp at hn ⊢; omega) (by simp at hm ⊢; omega)
            have h2 := ih m ('*' :: ps) ds (by simp at hn ⊢; omega) (by simp at hm ⊢; omega)
            simp [h1, h2]
          · have h3 := ih m ps ds (by simp at hn ⊢; omega) (by simp at hm ⊢; omega)
            simp [hc, h3]

theorem globStep_preserves (filePath : String) (seen : List (String × FilePolicy))
    (acc : Option FilePolicy × Int) (kv : String × FilePolicy)
    (h : globAccOk filePath seen acc) :
    globAccOk filePath (seen ++ [kv]) (globStep filePath acc kv) := by
  obtain ⟨pat0, pol0⟩ := kv
  by_cases hstar : strContainsChar pat0 '*'
  · by_cases hmatch : matchesFilePattern pat0 filePath
    · by_cases hlen : ((pat0.length : Int) > acc.2)
      · have hstep : globStep filePath acc (pat0, pol0) = (some pol0, (pat0.length : Int)) := by
          simp [globStep, hstar, hmatch, hlen]
        rw [hstep]
        right
        refine ⟨pat0, pol0, by simp, hstar, hmatch, rfl, ?_⟩
        intro q qp hq hqstar hqmatch
        rcases List.mem_append.mp hq with hq | hq
        · rcases h with ⟨hacc, hnone⟩ | ⟨pat, pol, _, _, _, hacc, hmax⟩
          · exact absurd hqmatch (by simp [hnone _ _ hq hqstar])
          · have := hmax q qp hq hqstar hqmatch
            have hacc2 : acc.2 = (pat.length : Int) := by rw [hacc]
            omega
        · simp at hq
          obtain ⟨rfl, rfl⟩ := hq
          omega
      · have hstep : globStep filePath acc (pat0, pol0) = acc := by
          simp [globStep, hstar, hmatch, hlen]
        rw [hstep]
        rcases h with ⟨hacc, hnone⟩ | ⟨pat, pol, hmem, hpstar, hpmatch, hacc, hmax⟩
        · exfalso
          have : acc.2 = (-1 : Int) := by rw [hacc]
          omega
        · right
          refine ⟨pat, pol, List.mem_append.mpr (Or.inl hmem), hpstar, hpmatch, hacc, ?_⟩
          intro q qp hq hqstar hqmatch
          rcases List.mem_append.mp hq with hq | hq
          · exact hmax q qp hq hqstar hqmatch
          · simp at hq
            obtain ⟨rfl, rfl⟩ := hq
            have hacc2 : acc.2 = (pat.length : Int) := by rw [hacc]
            omega
    · have hstep : globStep filePath acc (pat0, pol0) = acc := by
        simp [globStep, hstar, hmatch]
      rw [hstep]
      rcases h with ⟨hacc, hnone⟩ | ⟨pat, pol, hmem, hpstar, hpmatch, hacc, hmax⟩
      · left
        refine ⟨hacc, ?_⟩
        intro q qp hq hqstar
        rcases List.mem_append.mp hq with hq | hq
        · exact hnone q qp hq hqstar
        · simp at hq
          obtain ⟨rfl, rfl⟩ := hq
          simpa using hmatch
      · right
        refine ⟨pat, pol, List.mem_append.mpr (Or.inl hmem), hpstar, hpmatch, hacc, ?_⟩
        intro q qp hq hqstar hqmatch
        rcases List.mem_append.mp hq with hq | hq
        · exact hmax q qp hq hqstar hqmatch
        · simp at hq
          obtain ⟨rfl, rfl⟩ := hq
          exact absurd hqmatch (by simp [hmatch])
  · have hstep : globStep filePath acc (pat0, pol0) = acc := by
      simp [globStep, hstar]
    rw [hstep]
    rcases h with ⟨hacc, hnone⟩ | ⟨pat, pol, hmem, hpstar, hpmatch, hacc, hmax⟩
    · left
      refine ⟨hacc, ?_⟩
      intro q qp hq hqstar
      rcases List.mem_append.mp hq with hq | hq
      · exact hnone q qp hq hqstar
      · simp at hq
        obtain ⟨rfl, rfl⟩ := hq
        exact absurd hqstar (by simp [hstar])
    · right
      refine ⟨pat, pol, List.mem_append.mpr (Or.inl hmem), hpstar, hpmatch, hacc, ?_⟩
      intro q qp hq hqstar hqmatch
      rcases List.mem_append.mp hq with hq | hq
      · exact hmax q qp hq hqstar hqmatch
      · simp at hq
        obtain ⟨rfl, rfl⟩ := hq
        exact absurd hqstar (by simp [hstar])

theorem globLoop_go (filePath : String) :
    ∀ (rest seen : List (String × FilePolicy)) (acc : Option FilePolicy × Int),
      globAccOk filePath seen acc →
      globAccOk filePath (seen ++ rest) (rest.foldl (globStep filePath) acc) := by
  intro rest
  induction rest with
  | nil => intro seen acc h; simpa using h
  | cons kv rest2 ih =>
    intro seen acc h
    have h1 := globStep_preserves filePath seen acc kv h
    have h2 := ih (seen ++ [kv]) (globStep filePath acc kv) h1
    simpa using h2

theorem globLoop_spec (files : List (String × FilePolicy)) (filePath : String) :
    globAccOk filePath files (globLoop files filePath) := by
  have h := globLoop_go filePath files [] (none, -1) (Or.inl ⟨rfl, by simp⟩)
  simpa [globLoop] using h

/-- C5: resolveFilePolicy returns the policy of an exactly matching
pattern when one exists; otherwise, among the wildcard patterns matching
the path, the policy of the longest pattern string wins, and a wildcard
pattern never matches across a directory boundary; when no pattern
matches, the default immutable policy is returned.  Concretely, an exact
soul.md entry beats a markdown wildcard, and a directory-qualified text
wildcard beats a bare one. -/
theorem resolveFilePolicy_c5 :
    (∀ (config : SigConfig) (files : List (String × FilePolicy)) (filePath : String)
        (p : FilePolicy),
       config.files = some files → lookupPolicy files filePath = some p →
       resolveFilePolicy config filePath = mergeDefault p)
    ∧ (∀ (config : SigConfig) (files : List (String × FilePolicy)) (filePath : String)
          (pat : String) (pol : FilePolicy),
       config.files = some files → lookupPolicy files filePath = none →
       (pat, pol) ∈ files → strContainsChar pat '*' = true →
       matchesFilePattern pat filePath = true →
       ∃ pat2 pol2, (pat2, pol2) ∈ files ∧ strContainsChar pat2 '*' = true ∧
         matchesFilePattern pat2 filePath = true ∧
         resolveFilePolicy config filePath = mergeDefault pol2 ∧
         (∀ q qp, (q, qp) ∈ files → strContainsChar q '*' = true →
            matchesFilePattern q filePath = true → (q.length : Int) ≤ (pat2.length : Int)))
    ∧ (∀ (pat filePath : String), strContainsChar pat '*' = true →
         matchesFilePattern pat filePath = true → dirnameStr pat = dirnameStr filePath)
    ∧ (∀ (config : SigConfig) (files : List (String × FilePolicy)) (filePath : String),
       config.files = some files → lookupPolicy files filePath = none →
       (∀ pat pol, (pat, pol) ∈ files → strContainsChar pat '*' = true →
          matchesFilePattern pat filePath = false) →
       resolveFilePolicy config filePath = DEFAULT_POLICY)
    ∧ (∀ (config : SigConfig) (filePath : String),
       config.files = none → resolveFilePolicy config filePath = DEFAULT_POLICY)
    ∧ DEFAULT_POLICY = ({ mutable := some false, authorizedIdentities := none, requireSignedSource := none, requireApproval := none } : FilePolicy)
    ∧ (resolveFilePolicy mdConfig "soul.md").mutable = some true
    ∧ (resolveFilePolicy txtConfig "prompts/review.txt").mutable = some true := by
  refine ⟨?_, ?_, ?_, ?_, ?_, rfl, by decide, by decide⟩
  · intro config files filePath p hcf hl
    simp [resolveFilePolicy, hcf, hl]
  · intro config files filePath pat pol hcf hl hmem hstar hmatch
    rcases globLoop_spec files filePath with ⟨_, hnone⟩ | ⟨pat2, pol2, hmem2, hstar2, hmatch2, hacc, hmax⟩
    · exact absurd hmatch (by simp [hnone pat pol hmem hstar])
    · refine ⟨pat2, pol2, hmem2, hstar2, hmatch2, ?_, hmax⟩
      have hfst : (globLoop files filePath).1 = some pol2 := by rw [hacc]
      simp [resolveFilePolicy, hcf, hl, hfst]
  · intro pat filePath hstar hmatch
    unfold matchesFilePattern at hmatch
    rw [hstar] at hmatch
    simp only [Bool.not_true, Bool.false_eq_true, if_false] at hmatch
    by_cases hdir : dirnameStr pat = dirnameStr filePath
    · exact hdir
    · rw [if_pos (by simpa using hdir)] at hmatch
      exact absurd hmatch (by simp)
  · intro config files filePath hcf hl hnomatch
    rcases globLoop_spec files filePath with ⟨hacc, _⟩ | ⟨pat2, pol2, hmem2, hstar2, hmatch2, _, _⟩
    · have hfst : (globLoop files filePath).1 = none := by rw [hacc]
      simp [resolveFilePolicy, hcf, hl, hfst]
    · exact absurd hmatch2 (by simp [hnomatch pat2 pol2 hmem2 hstar2])
  · intro config filePath hcf
    simp [resolveFilePolicy, hcf]

/-- Witness for C5: the exact-match arm applied to the markdown example
table, resolving soul.md to the mutable exact entry. -/
theorem resolveFilePolicy_c5_witness :
    resolveFilePolicy mdConfig "soul.md" = mergeDefault { mutable := some true } := by
  have h := resolveFilePolicy_c5.1 mdConfig
    [("*.md", { mutable := some false }), ("soul.md", { mutable := some true })]
    "soul.md" { mutable := some true } rfl (by decide)
  exact h

theorem pcLoadShape_bad (p : PartialContentSig) (hbad : shapeOk p = false) :
    pcLoadShape p = none := by
  unfold pcLoadShape
  cases hid : p.id <;> cases hh : p.hash <;> cases hsb : p.signedBy
    <;> cases hsa : p.signedAt <;> cases hcl : p.contentLength
    <;> cases halg : p.algorithm <;>
    simp_all [shapeOk]

theorem pcLoadPure_parsed_bad (st : PCState) (id : String) (p : PartialContentSig)
    (hmeta : st.metas id = .parsed p) (hbad : shapeOk p = false) :
    pcLoadPure st id = none := by
  unfold pcLoadPure
  rw [hmeta]
  exact pcLoadShape_bad p hbad

theorem pcLoadShape_toPartial (cs : ContentSignature) (halg : cs.algorithm = "sha256") :
    pcLoadShape (toPartial cs) = some cs := by
  cases cs with
  | mk i h alg sb sa cl md =>
    simp only at halg
    subst halg
    rfl

theorem pcLoadPure_toPartial (st : PCState) (id : String) (cs : ContentSignature)
    (hmeta : st.metas id = .parsed (toPartial cs)) (halg : cs.algorithm = "sha256") :
    pcLoadPure st id = some cs := by
  unfold pcLoadPure
  rw [hmeta]
  exact pcLoadShape_toPartial cs halg

theorem pcSign_valid (sha256hex : String → String) (st : PCState) (content : String)
    (options : PersistentSignOptions) (now : String)
    (h : ensureValidId options.id = .ok ()) :
    pcSign sha256hex st content options now =
      .ok (signContent sha256hex content
          { id := options.id, identity := pcResolveIdentity st options
            metadata := options.metadata } now,
        { st with
            metas := setKey st.metas options.id (.parsed (toPartial
              (signContent sha256hex content
                { id := options.id, identity := pcResolveIdentity st options
                  metadata := options.metadata } now)))
            contents := setKey st.contents options.id (some content)
            audit := st.audit ++
              [{ ts := now, event := .sign, file := "content:" ++ options.id
                 hash := some (signContent sha256hex content
                   { id := options.id, identity := pcResolveIdentity st options
                     metadata := options.metadata } now).hash
                 identity := some (signContent sha256hex content
                   { id := options.id, identity := pcResolveIdentity st options
                     metadata := options.metadata } now).signedBy }] }) := by
  unfold pcSign
  rw [h]

theorem pcSignIfChanged_valid (sha256hex : String → String) (st : PCState)
    (content : String) (options : PersistentSignOptions) (now : String)
    (h : ensureValidId options.id = .ok ()) :
    pcSignIfChanged sha256hex st content options now =
      match pcLoadPure st options.id with
      | some e =>
        if e.hash = digestOf sha256hex content then
          match st.contents options.id with
          | none =>
            .ok (e, { st with contents := setKey st.contents options.id (some content) })
          | some _ => .ok (e, st)
        else pcSign sha256hex st content options now
      | none => pcSign sha256hex st content options now := by
  unfold pcSignIfChanged
  rw [h]

/-- C10: in the persisted content store, load returns nothing alike for a
missing metadata record, bytes that fail to parse as JSON, and a parsed
record of invalid shape, and verify consequently reports the identical
"No signature found for id" error in all three cases, so a corrupted
persisted record is indistinguishable from one never signed at this
interface. -/
theorem pcLoad_c10 (sha256hex : String → String) (st : PCState) (id now : String)
    (hvalid : ensureValidId id = .ok ())
    (hbad : st.metas id = .absent ∨ st.metas id = .unreadable ∨
      (∃ p, st.metas id = .parsed p ∧ shapeOk p = false)) :
    pcLoad st id = .ok none ∧
    pcVerify sha256hex st id none none now =
      .ok ({ verified := false, id := id, error := some "No signature found for id" },
        pcLogVerifyFailure st id "No signature found for id" none now) := by
  have hpure : pcLoadPure st id = none := by
    rcases hbad with h | h | ⟨p, hmeta, hbadp⟩
    · simp [pcLoadPure, h]
    · simp [pcLoadPure, h]
    · exact pcLoadPure_parsed_bad st id p hmeta hbadp
  refine ⟨?_, ?_⟩
  · simp [pcLoad, hvalid, hpure]
  · simp [pcVerify, hvalid, hpure]

/-- Witness for C10: a store whose msg-1 record parses but lacks the hash
field verifies exactly like one that was never signed. -/
theorem pcLoad_c10_witness :
    pcLoad { emptyPCState with
        metas := fun k => if k = "bad-1" then .parsed { id := some "bad-1" } else .absent }
      "bad-1" = .ok none ∧
    pcVerify identityHex { emptyPCState with
        metas := fun k => if k = "bad-1" then .parsed { id := some "bad-1" } else .absent }
      "bad-1" none none "t1" =
      .ok ({ verified := false, id := "bad-1", error := some "No signature found for id" },
        pcLogVerifyFailure { emptyPCState with
            metas := fun k => if k = "bad-1" then .parsed { id := some "bad-1" } else .absent }
          "bad-1" "No signature found for id" none "t1") :=
  pcLoad_c10 identityHex _ "bad-1" "t1" (by decide)
    (Or.inr (Or.inr ⟨{ id := some "bad-1" }, by simp, by decide⟩))

/-- C7: signIfChanged returns the existing signature unchanged, identical
digest and identical original timestamp, when the stored digest equals
the proposed content digest, re-issues a fresh signature over the new
digest and updates the stored content when the digests differ, and is
therefore idempotent under re-submission of identical content. -/
theorem pcSignIfChanged_c7 (sha256hex : String → String) :
    (∀ (st : PCState) (content : String) (options : PersistentSignOptions) (now : String)
        (e : ContentSignature),
      ensureValidId options.id = .ok () →
      pcLoadPure st options.id = some e →
      e.hash = digestOf sha256hex content →
      ∃ st2, pcSignIfChanged sha256hex st content options now = .ok (e, st2) ∧
        st2.metas = st.metas ∧
        (st.contents options.id = none →
          st2 = { st with contents := setKey st.contents options.id (some content) }) ∧
        (∀ c0, st.contents options.id = some c0 → st2 = st))
    ∧ (∀ (st : PCState) (content : String) (options : PersistentSignOptions) (now : String),
      ensureValidId options.id = .ok () →
      (∀ e, pcLoadPure st options.id = some e → e.hash ≠ digestOf sha256hex content) →
      ∃ s2 st2, pcSignIfChanged sha256hex st content options now = .ok (s2, st2) ∧
        s2.hash = digestOf sha256hex content ∧ s2.signedAt = now ∧
        st2.metas options.id = .parsed (toPartial s2) ∧
        st2.contents options.id = some content)
    ∧ (∀ (st : PCState) (content : String) (options : PersistentSignOptions)
        (now1 now2 : String) (s1 : ContentSignature) (st1 : PCState),
      pcSignIfChanged sha256hex st content options now1 = .ok (s1, st1) →
      pcSignIfChanged sha256hex st1 content options now2 = .ok (s1, st1)) := by
  refine ⟨?_, ?_, ?_⟩
  · intro st content options now e hvalid hload hhash
    rw [pcSignIfChanged_valid sha256hex st content options now hvalid]
    simp only [hload, if_pos hhash]
    cases hc : st.contents options.id with
    | none =>
      exact ⟨_, rfl, rfl, fun _ => rfl, fun c0 hc0 => by simp at hc0⟩
    | some c0 =>
      exact ⟨st, rfl, rfl, fun h0 => by simp at h0, fun _ _ => rfl⟩
  · intro st content options now hvalid hdiff
    rw [pcSignIfChanged_valid sha256hex st content options now hvalid]
    cases hload : pcLoadPure st options.id with
    | none =>
      rw [pcSign_valid sha256hex st content options now hvalid]
      exact ⟨_, _, rfl, rfl, rfl, by simp [setKey], by simp [setKey]⟩
    | some e =>
      simp only [if_neg (hdiff e hload)]
      rw [pcSign_valid sha256hex st content options now hvalid]
      exact ⟨_, _, rfl, rfl, rfl, by simp [setKey], by simp [setKey]⟩
  · intro st content options now1 now2 s1 st1 hfirst
    cases hvalid : ensureValidId options.id with
    | error e =>
      unfold pcSignIfChanged at hfirst
      simp only [hvalid] at hfirst
      exact Except.noConfusion hfirst
    | ok u =>
      cases u
      rw [pcSignIfChanged_valid sha256hex st content options now1 hvalid] at hfirst
      rw [pcSignIfChanged_valid sha256hex st1 content options now2 hvalid]
      cases hload : pcLoadPure st options.id with
      | some e =>
        simp only [hload, Except.ok.injEq, Prod.mk.injEq] at hfirst
        by_cases hh : e.hash = digestOf sha256hex content
        · simp only [if_pos hh] at hfirst
          cases hc : st.contents options.id with
          | none =>
            simp only [hc, Except.ok.injEq, Prod.mk.injEq] at hfirst
            obtain ⟨rfl, rfl⟩ := hfirst
            have hload1 : pcLoadPure { st with
                contents := setKey st.contents options.id (some content) } options.id
                = some e := hload
            simp only [hload1, if_pos hh]
            simp [setKey]
          | some c0 =>
            simp only [hc, Except.ok.injEq, Prod.mk.injEq] at hfirst
            obtain ⟨rfl, rfl⟩ := hfirst
            simp only [hload, if_pos hh, hc]
        · simp only [if_neg hh] at hfirst
          rw [pcSign_valid sha256hex st content options now1 hvalid] at hfirst
          simp only [Except.ok.injEq, Prod.mk.injEq] at hfirst
          obtain ⟨rfl, rfl⟩ := hfirst
          rw [pcLoadPure_toPartial _ options.id
            (signContent sha256hex content
              { id := options.id, identity := pcResolveIdentity st options
                metadata := options.metadata } now1)
            (by simp [setKey]) rfl]
          have hcond : (signContent sha256hex content
              { id := options.id, identity := pcResolveIdentity st options
                metadata := options.metadata } now1).hash = digestOf sha256hex content := rfl
          simp only [if_pos hcond]
          simp [setKey]
      | none =>
        simp only [hload] at hfirst
        rw [pcSign_valid sha256hex st content options now1 hvalid] at hfirst
        simp only [Except.ok.injEq, Prod.mk.injEq] at hfirst
        obtain ⟨rfl, rfl⟩ := hfirst
        rw [pcLoadPure_toPartial _ options.id
          (signContent sha256hex content
            { id := options.id, identity := pcResolveIdentity st options
              metadata := options.metadata } now1)
          (by simp [setKey]) rfl]
        have hcond : (signContent sha256hex content
            { id := options.id, identity := pcResolveIdentity st options
              metadata := options.metadata } now1).hash = digestOf sha256hex content := rfl
        simp only [if_pos hcond]
        simp [setKey]

/-- C9 counterexample: the claim says every store operation rejects an
identifier containing a path separator or a dotdot segment before any
path construction.  The signature store does not: resolveContainedPath,
the only guard in front of it, accepts the identifier a/../b, and the
sigPath construction itself accepts a climbing identifier and produces a
path outside the storage root. -/
theorem storeId_c9_counterexample :
    strIncludes "a/../b" ".." = true ∧ strIncludes "a/../b" "/" = true ∧
    resolveContainedPath "/proj" "a/../b" = .ok "b" ∧
    sigPath "/proj/.sig" "../../x" = "/proj/x.sig.json" ∧
    strStartsWith (sigPath "/proj/.sig" "../../x") "/proj/.sig" = false := by
  decide

/-- C9 as amended: identifier validation before any path construction
holds for the persisted content store — an empty identifier or one
containing a separator, a dotdot, or a null byte makes every id-addressed
operation return an explicit error — while the signature store relies on
resolveContainedPath at its call sites, which guarantees only that an
accepted path, normalized, stays inside the project root. -/
theorem ensureValidId_c9 :
    (∀ id : String,
      id = "" ∨ strIncludes id "/" = true ∨ strIncludes id "\\" = true ∨
        strIncludes id ".." = true ∨ strIncludes id "\x00" = true →
      ∃ msg, ensureValidId id = .error msg)
    ∧ (∀ (id msg : String), ensureValidId id = .error msg →
      ∀ (st : PCState) (sha : String → String) (content : String)
        (metadata : Option (List (String × String))) (identityOpt : Option String)
        (optContent detail : Option String) (now : String),
      pcLoad st id = .error msg ∧ pcLoadContent st id = .error msg ∧
      pcHas st id = .error msg ∧ pcDelete st id = .error msg ∧
      pcVerify sha st id optContent detail now = .error msg ∧
      pcSign sha st content { id := id, identity := identityOpt, metadata := metadata } now
        = .error msg ∧
      pcSignIfChanged sha st content
        { id := id, identity := identityOpt, metadata := metadata } now = .error msg)
    ∧ (∀ (root fp rel : String), resolveContainedPath root fp = .ok rel →
      strStartsWith rel ".." = false ∧ resolvePath root rel = resolvePath root fp) := by
  refine ⟨?_, ?_, ?_⟩
  · intro id h
    unfold ensureValidId
    by_cases h0 : id = ""
    · exact ⟨"Content ID cannot be empty", by rw [if_pos h0]⟩
    · rcases h with h | h | h | h | h
      · exact absurd h h0
      all_goals
        exact ⟨"Invalid content ID: " ++ id, by rw [if_neg h0, if_pos (by simp [h])]⟩
  · intro id msg herr st sha content metadata identityOpt optContent detail now
    refine ⟨?_, ?_, ?_, ?_, ?_, ?_, ?_⟩
    · unfold pcLoad; rw [herr]
    · unfold pcLoadContent; rw [herr]
    · unfold pcHas; rw [herr]
    · unfold pcDelete; rw [herr]
    · unfold pcVerify; rw [herr]
    · unfold pcSign; rw [herr]
    · unfold pcSignIfChanged; rw [herr]
  · intro root fp rel h
    unfold resolveContainedPath at h
    by_cases hcond : strStartsWith (relativePath root (resolvePath root fp)) ".." = true
        ∨ resolvePath root (relativePath root (resolvePath root fp)) ≠ resolvePath root fp
    · rw [if_pos (by simpa using hcond)] at h
      exact Except.noConfusion h
    · rw [if_neg (by simpa using hcond)] at h
      simp only [Except.ok.injEq] at h
      subst h
      push_neg at hcond
      exact ⟨by simpa using hcond.1, hcond.2⟩

/-- Witness for C9 as amended: the identifier a/b carries a separator, so
signIfChanged on the empty store rejects it with the explicit invalid-id
error, and the contained resolution of soul.md keeps its promises. -/
theorem ensureValidId_c9_witness :
    pcSignIfChanged identityHex emptyPCState "x" { id := "a/b" } "t1"
      = .error "Invalid content ID: a/b" ∧
    strStartsWith "soul.md" ".." = false ∧
    resolvePath "/proj" "soul.md" = resolvePath "/proj" "soul.md" := by
  refine ⟨?_, by decide, rfl⟩
  have h := (ensureValidId_c9.2.1 "a/b" "Invalid content ID: a/b" (by decide)
    emptyPCState identityHex "x" none none none none "t1").2.2.2.2.2.2
  exact h

/-- Witness for C7: re-submitting hello for the already signed msg-1
returns the stored signature with its original timestamp and leaves the
store unchanged. -/
theorem pcSignIfChanged_c7_witness :
    pcSignIfChanged identityHex samplePCState "hello"
      { id := "msg-1" } "2025-06-01T00:00:00Z" = .ok (sampleSig, samplePCState) := by
  obtain ⟨st2, hcall, _, _, hsame⟩ :=
    (pcSignIfChanged_c7 identityHex).1 samplePCState "hello" { id := "msg-1" }
      "2025-06-01T00:00:00Z" sampleSig (by decide)
      (pcLoadPure_toPartial samplePCState "msg-1" sampleSig (by simp [samplePCState]) rfl)
      (by decide)
  rw [hsame "hello" (by simp [samplePCState])] at hcall
  exact hcall

/-- Counterexample to C8 as stated: soul.md's signature record holds bytes
that JSON-parse to null — a record that exists on disk but is not valid
signature metadata — yet loadSig reports no corrupted condition (a null
signature with no error tag) and checkFile returns exactly the unsigned
result of the world that never signed soul.md, so a caller of checkFile
cannot always tell never-signed apart from signed-then-tampered. -/
theorem loadSig_c8_counterexample :
    c8NullWorld.sigs "soul.md" ≠ .absent ∧
    c8NullWorld.files = c8AbsentWorld.files ∧
    (loadSig c8NullWorld "soul.md").error ≠ some .corrupted ∧
    (loadSig c8NullWorld "soul.md").signature = none ∧
    checkFile identityHex c8NullWorld "/proj" "soul.md"
      = .ok { file := "soul.md", status := .unsigned } ∧
    checkFile identityHex c8NullWorld "/proj" "soul.md"
      = checkFile identityHex c8AbsentWorld "/proj" "soul.md" :=
  ⟨by decide, rfl, by decide, by decide, by decide, by decide⟩

/-- C8 (corrected): a record whose bytes throw in JSON.parse loads with
the distinct corrupted tag, never the not-found result of an absent
record, and checkFile maps the two onto the distinct corrupted and
unsigned statuses; but the distinction covers only parse failures — a
record whose bytes parse to a falsy value such as the literal null loads
as a null signature with no error tag at all, and checkFile reports for it
exactly the unsigned result of a never-signed file. -/
theorem loadSig_c8 :
    (∀ (w : World) (p : String), w.sigs p = .corruptBytes →
      loadSig w p = { signature := none, error := some .corrupted })
    ∧ (∀ (w : World) (p : String), w.sigs p = .absent →
      loadSig w p = { signature := none, error := some .notFound })
    ∧ (({ signature := none, error := some .corrupted } : LoadSigResult) ≠
        { signature := none, error := some .notFound })
    ∧ (∀ (sha256hex : String → String) (w : World) (root fp rel : String),
        resolveContainedPath root fp = .ok rel → w.sigs rel = .corruptBytes →
        checkFile sha256hex w root fp = .ok { file := rel, status := .corrupted })
    ∧ (∀ (sha256hex : String → String) (w : World) (root fp rel : String),
        resolveContainedPath root fp = .ok rel → w.sigs rel = .absent →
        checkFile sha256hex w root fp = .ok { file := rel, status := .unsigned })
    ∧ CheckStatus.corrupted ≠ CheckStatus.unsigned
    ∧ (∀ (w : World) (p : String), w.sigs p = .parsedNull →
      loadSig w p = { signature := none, error := none })
    ∧ (∀ (sha256hex : String → String) (w : World) (root fp rel : String),
        resolveContainedPath root fp = .ok rel → w.sigs rel = .parsedNull →
        checkFile sha256hex w root fp = .ok { file := rel, status := .unsigned }) := by
  refine ⟨?_, ?_, by decide, ?_, ?_, by decide, ?_, ?_⟩
  · intro w p h; simp [loadSig, h]
  · intro w p h; simp [loadSig, h]
  · intro sha w root fp rel hres hsig
    unfold checkFile
    simp only [hres]
    simp [loadSig, hsig]
  · intro sha w root fp rel hres hsig
    unfold checkFile
    simp only [hres]
    simp [loadSig, hsig]
  · intro w p h; simp [loadSig, h]
  · intro sha w root fp rel hres hsig
    unfold checkFile
    simp only [hres]
    simp [loadSig, hsig]

theorem logEventW_ite (w : World) (c : Prop) [Decidable c] (e1 e2 : AuditEntry) :
    (if c then logEventW w e1 else logEventW w e2) = logEventW w (if c then e1 else e2) := by
  by_cases h : c <;> simp [h]

theorem verifyFile_frame (sha256hex : String → String) (w : World)
    (root fp now : String) (res : VerifyResult) (w' : World)
    (h : verifyFile sha256hex w root fp now = .ok (res, w')) :
    w'.config = w.config ∧ w'.files = w.files ∧ w'.sigs = w.sigs ∧
    w'.signedContents = w.signedContents ∧ w'.chains = w.chains ∧
    w'.envIdentity = w.envIdentity ∧ ∃ delta, w'.audit = w.audit ++ delta := by
  unfold verifyFile at h
  cases hres : resolveContainedPath root fp with
  | error e =>
    rw [hres] at h
    exact Except.noConfusion h
  | ok rel =>
    rw [hres] at h
    simp only at h
    cases hsig : (loadSig w rel).signature with
    | none =>
      simp only [hsig, Except.ok.injEq, Prod.mk.injEq] at h
      obtain ⟨-, rfl⟩ := h
      exact ⟨rfl, rfl, rfl, rfl, rfl, rfl, _, rfl⟩
    | some sig =>
      simp only [hsig] at h
      cases hf : w.files rel with
      | none =>
        simp only [hf, Except.ok.injEq, Prod.mk.injEq] at h
        obtain ⟨-, rfl⟩ := h
        exact ⟨rfl, rfl, rfl, rfl, rfl, rfl, _, rfl⟩
      | some content =>
        simp only [hf, Except.ok.injEq, Prod.mk.injEq] at h
        obtain ⟨-, rfl⟩ := h
        rw [logEventW_ite]
        exact ⟨rfl, rfl, rfl, rfl, rfl, rfl, _, rfl⟩

theorem updateAndSign_eq (sha256hex : String → String) (w : World)
    (root fp newContent : String) (options : UpdateAndSignOptions) (now rel : String)
    (hres : resolveContainedPath root fp = .ok rel) :
    updateAndSign sha256hex w root fp newContent options now =
      (if !((resolveFilePolicy w.config rel).mutable.getD false) then
        .ok (denyUpdate w rel options.identity options.provenance now
          "File is not mutable" .not_mutable "File policy does not allow mutations")
      else
        match (loadSig w rel).signature with
        | none =>
          .ok (denyUpdate w rel options.identity options.provenance now
            "File has no existing signature" .not_signed
            "File must be initially signed via `sig sign` before it can be updated")
        | some existingSig =>
          match (resolveFilePolicy w.config rel).authorizedIdentities with
          | some l =>
            if l.length > 0 &&
                !(l.any (fun pattern => matchesIdentityPattern pattern options.identity)) then
              .ok (denyUpdate w rel options.identity options.provenance now
                ("Identity not authorized. Allowed: " ++ joinComma l) .unauthorized_identity
                ("Identity \"" ++ options.identity ++ "\" is not authorized to update this file"))
            else
              updateProvenanceStage sha256hex w root rel newContent options existingSig
                (resolveFilePolicy w.config rel) now
          | none =>
            updateProvenanceStage sha256hex w root rel newContent options existingSig
              (resolveFilePolicy w.config rel) now) := by
  unfold updateAndSign
  rw [hres]

theorem updateAndSign_past_stage3 (sha256hex : String → String) (w : World)
    (root fp newContent : String) (options : UpdateAndSignOptions) (now rel : String)
    (existingSig : Signature)
    (hres : resolveContainedPath root fp = .ok rel)
    (hmut : (resolveFilePolicy w.config rel).mutable.getD false = true)
    (hsig : (loadSig w rel).signature = some existingSig)
    (h3 : stage3Fails (resolveFilePolicy w.config rel) options.identity = false) :
    updateAndSign sha256hex w root fp newContent options now =
      updateProvenanceStage sha256hex w root rel newContent options existingSig
        (resolveFilePolicy w.config rel) now := by
  rw [updateAndSign_eq sha256hex w root fp newContent options now rel hres]
  cases hauth : (resolveFilePolicy w.config rel).authorizedIdentities with
  | none => simp [hmut, hsig, hauth]
  | some l =>
    have h3' : (decide (l.length > 0) &&
        !(l.any fun pattern => matchesIdentityPattern pattern options.identity)) = false := by
      simpa [stage3Fails, hauth] using h3
    simp [hmut, hsig, hauth, h3']

/-- C1: the five authorization stages run strictly in the order
not_mutable, not_signed, unauthorized_identity, unsigned_source,
source_verification_failed; the first failing stage terminates the
pipeline and fixes the denial code, and when every stage passes with no
signed-source requirement the update is approved.  In particular a
request against a non-mutable, unsigned artifact under an unauthorized
identity with missing provenance is denied not_mutable. -/
theorem updateAndSign_c1 (sha256hex : String → String) (w : World)
    (root fp newContent : String) (options : UpdateAndSignOptions) (now rel : String)
    (policy : FilePolicy)
    (hres : resolveContainedPath root fp = .ok rel)
    (hpol : policy = resolveFilePolicy w.config rel) :
    (policy.mutable.getD false = false →
      updateAndSign sha256hex w root fp newContent options now =
        .ok (denyUpdate w rel options.identity options.provenance now
          "File is not mutable" .not_mutable "File policy does not allow mutations"))
    ∧ (policy.mutable.getD false = true → (loadSig w rel).signature = none →
      updateAndSign sha256hex w root fp newContent options now =
        .ok (denyUpdate w rel options.identity options.provenance now
          "File has no existing signature" .not_signed
          "File must be initially signed via `sig sign` before it can be updated"))
    ∧ (policy.mutable.getD false = true →
      ∀ s, (loadSig w rel).signature = some s →
      ∀ l, policy.authorizedIdentities = some l →
      stage3Fails policy options.identity = true →
      updateAndSign sha256hex w root fp newContent options now =
        .ok (denyUpdate w rel options.identity options.provenance now
          ("Identity not authorized. Allowed: " ++ joinComma l) .unauthorized_identity
          ("Identity \"" ++ options.identity ++ "\" is not authorized to update this file")))
    ∧ (policy.mutable.getD false = true →
      (∀ s, (loadSig w rel).signature = some s →
      stage3Fails policy options.identity = false →
      policy.requireSignedSource.getD false = true →
      jsTruthy options.provenance.sourceId = false →
      ∃ res w', updateAndSign sha256hex w root fp newContent options now = .ok (res, w') ∧
        res.approved = false ∧ res.denial.map Denial.code = some .unsigned_source))
    ∧ (policy.mutable.getD false = true →
      (∀ s, (loadSig w rel).signature = some s →
      stage3Fails policy options.identity = false →
      policy.requireSignedSource.getD false = true →
      options.provenance.sourceType = .signed_message →
      ∀ sid, options.provenance.sourceId = some sid → sid ≠ "" →
      ∀ cs, options.contentStore = some cs →
      (ContentStore.verify sha256hex cs sid).verified = false →
      ∃ res w', updateAndSign sha256hex w root fp newContent options now = .ok (res, w') ∧
        res.approved = false ∧
        res.denial.map Denial.code = some .source_verification_failed))
    ∧ (policy.mutable.getD false = true →
      (∀ s, (loadSig w rel).signature = some s →
      stage3Fails policy options.identity = false →
      policy.requireSignedSource.getD false = true →
      options.provenance.sourceType = .signed_template →
      ∀ sid, options.provenance.sourceId = some sid → sid ≠ "" →
      ∀ tr w1, verifyFile sha256hex w root sid now = .ok (tr, w1) →
      tr.verified = false →
      ∃ res w', updateAndSign sha256hex w root fp newContent options now = .ok (res, w') ∧
        res.approved = false ∧
        res.denial.map Denial.code = some .source_verification_failed))
    ∧ (policy.mutable.getD false = true →
      (∀ s, (loadSig w rel).signature = some s →
      stage3Fails policy options.identity = false →
      policy.requireSignedSource.getD false = false →
      ∃ res w', updateAndSign sha256hex w root fp newContent options now = .ok (res, w') ∧
        res.approved = true)) := by
  subst hpol
  refine ⟨?_, ?_, ?_, ?_, ?_, ?_, ?_⟩
  · intro hmut
    rw [updateAndSign_eq sha256hex w root fp newContent options now rel hres]
    simp [hmut]
  · intro hmut hsig
    rw [updateAndSign_eq sha256hex w root fp newContent options now rel hres]
    simp [hmut, hsig]
  · intro hmut s hsig l hauth h3
    rw [updateAndSign_eq sha256hex w root fp newContent options now rel hres]
    have h3' : (decide (l.length > 0) &&
        !(l.any fun pattern => matchesIdentityPattern pattern options.identity)) = true := by
      simpa [stage3Fails, hauth] using h3
    simp [hmut, hsig, hauth, h3']
  · intro hmut s hsig h3 hrss hblank
    rw [updateAndSign_past_stage3 sha256hex w root fp newContent options now rel s
      hres hmut hsig h3]
    unfold updateProvenanceStage
    rw [hrss]
    simp only [if_true, hblank, Bool.not_false, Bool.false_eq_true, if_false]
    cases hst : options.provenance.sourceType with
    | signed_message =>
      exact ⟨_, _, rfl, rfl, rfl⟩
    | signed_template =>
      exact ⟨_, _, rfl, rfl, rfl⟩
  · intro hmut s hsig h3 hrss hst sid hsid hne cs hcs hver
    rw [updateAndSign_past_stage3 sha256hex w root fp newContent options now rel s
      hres hmut hsig h3]
    unfold updateProvenanceStage
    rw [hrss]
    have hblank : jsTruthy options.provenance.sourceId = true := by
      rw [hsid]; simpa [jsTruthy] using hne
    simp only [if_true, hst, hblank, Bool.not_true, Bool.false_eq_true, if_false]
    rw [hsid]
    simp only [Option.getD_some, hcs, hver, Bool.not_false, if_true]
    exact ⟨_, _, rfl, rfl, rfl⟩
  · intro hmut s hsig h3 hrss hst sid hsid hne tr w1 hvf hver
    rw [updateAndSign_past_stage3 sha256hex w root fp newContent options now rel s
      hres hmut hsig h3]
    unfold updateProvenanceStage
    rw [hrss]
    have hblank : jsTruthy options.provenance.sourceId = true := by
      rw [hsid]; simpa [jsTruthy] using hne
    simp only [if_true, hst, hblank, Bool.not_true, Bool.false_eq_true, if_false]
    rw [hsid]
    simp only [Option.getD_some, hvf, hver, Bool.not_false, if_true]
    exact ⟨_, _, rfl, rfl, rfl⟩
  · intro hmut s hsig h3 hrss
    rw [updateAndSign_past_stage3 sha256hex w root fp newContent options now rel s
      hres hmut hsig h3]
    unfold updateProvenanceStage
    rw [hrss]
    simp only [Bool.false_eq_true, if_false]
    exact ⟨_, _, rfl, rfl⟩

/-- Witness for C1: an unmutable, unsigned, unauthorized request with
missing provenance is denied not_mutable — stage one short-circuits all
later stages. -/
theorem updateAndSign_c1_witness :
    updateAndSign identityHex c1World "/proj" "soul.md" "injected"
      { identity := "evil", provenance := { sourceType := .signed_message, reason := "r" } }
      "t1" =
      .ok (denyUpdate c1World "soul.md" "evil"
        { sourceType := .signed_message, reason := "r" } "t1"
        "File is not mutable" .not_mutable "File policy does not allow mutations") := by
  exact (updateAndSign_c1 identityHex c1World "/proj" "soul.md" "injected"
    { identity := "evil", provenance := { sourceType := .signed_message, reason := "r" } }
    "t1" "soul.md" (resolveFilePolicy c1World.config "soul.md")
    (by decide) rfl).1 (by decide)

/-- C2: with requireSignedSource set, a missing sourceId is denied
unsigned_source for both provenance kinds; signed-message provenance with
a sourceId delegates to the content store verify-by-id when a store
handle is present, and is skipped when none was supplied, the update then
being approved; signed-template provenance resolves the sourceId as an
artifact path through the full read-verify path, a failure yielding
source_verification_failed. -/
theorem updateAndSign_c2 (sha256hex : String → String) (w : World)
    (root fp newContent : String) (options : UpdateAndSignOptions) (now rel : String)
    (s : Signature)
    (hres : resolveContainedPath root fp = .ok rel)
    (hmut : (resolveFilePolicy w.config rel).mutable.getD false = true)
    (hsig : (loadSig w rel).signature = some s)
    (h3 : stage3Fails (resolveFilePolicy w.config rel) options.identity = false)
    (hrss : (resolveFilePolicy w.config rel).requireSignedSource.getD false = true) :
    (options.provenance.sourceType = .signed_message →
      jsTruthy options.provenance.sourceId = false →
      updateAndSign sha256hex w root fp newContent options now =
        .ok (denyUpdate w rel options.identity options.provenance now
          "No sourceId provided for signed_message provenance" .unsigned_source
          "sourceId is required when sourceType is signed_message"))
    ∧ (options.provenance.sourceType = .signed_template →
      jsTruthy options.provenance.sourceId = false →
      updateAndSign sha256hex w root fp newContent options now =
        .ok (denyUpdate w rel options.identity options.provenance now
          "No sourceId provided for signed_template provenance" .unsigned_source
          "sourceId is required when sourceType is signed_template"))
    ∧ (options.provenance.sourceType = .signed_message →
      ∀ sid, options.provenance.sourceId = some sid → sid ≠ "" →
      ∀ cs, options.contentStore = some cs →
      ((ContentStore.verify sha256hex cs sid).verified = false →
        updateAndSign sha256hex w root fp newContent options now =
          .ok (denyUpdate w rel options.identity options.provenance now
            ("ContentStore verification failed for sourceId: " ++ sid)
            .source_verification_failed
            ("Source message \"" ++ sid ++ "\" could not be verified"))) ∧
      ((ContentStore.verify sha256hex cs sid).verified = true →
        ∃ res w', updateAndSign sha256hex w root fp newContent options now = .ok (res, w') ∧
          res.approved = true))
    ∧ (options.provenance.sourceType = .signed_message →
      ∀ sid, options.provenance.sourceId = some sid → sid ≠ "" →
      options.contentStore = none →
      ∃ res w', updateAndSign sha256hex w root fp newContent options now = .ok (res, w') ∧
        res.approved = true)
    ∧ (options.provenance.sourceType = .signed_template →
      ∀ sid, options.provenance.sourceId = some sid → sid ≠ "" →
      ∀ tr w1, verifyFile sha256hex w root sid now = .ok (tr, w1) →
      ((tr.verified = false →
        updateAndSign sha256hex w root fp newContent options now =
          .ok (denyUpdate w1 rel options.identity options.provenance now
            ("Template verification failed for sourceId: " ++ sid)
            .source_verification_failed
            ("Source template \"" ++ sid ++ "\" could not be verified"))) ∧
      (tr.verified = true →
        ∃ res w', updateAndSign sha256hex w root fp newContent options now = .ok (res, w') ∧
          res.approved = true))) := by
  have hpast := updateAndSign_past_stage3 sha256hex w root fp newContent options now rel s
    hres hmut hsig h3
  refine ⟨?_, ?_, ?_, ?_, ?_⟩
  · intro hst hblank
    rw [hpast]
    unfold updateProvenanceStage
    rw [hrss]
    simp [hst, hblank]
  · intro hst hblank
    rw [hpast]
    unfold updateProvenanceStage
    rw [hrss]
    simp [hst, hblank]
  · intro hst sid hsid hne cs hcs
    have hblank : jsTruthy (some sid) = true := by simpa [jsTruthy] using hne
    constructor
    · intro hver
      rw [hpast]
      unfold updateProvenanceStage
      rw [hrss]
      simp [hst, hsid, hblank, hcs, hver]
    · intro hver
      rw [hpast]
      unfold updateProvenanceStage
      rw [hrss]
      simp only [if_true, hst, hsid, hblank, Bool.not_true, Bool.false_eq_true, if_false,
        Option.getD_some, hcs, hver]
      exact ⟨_, _, rfl, rfl⟩
  · intro hst sid hsid hne hcs
    have hblank : jsTruthy (some sid) = true := by simpa [jsTruthy] using hne
    rw [hpast]
    unfold updateProvenanceStage
    rw [hrss]
    simp only [if_true, hst, hsid, hblank, Bool.not_true, Bool.false_eq_true, if_false,
      Option.getD_some, hcs]
    exact ⟨_, _, rfl, rfl⟩
  · intro hst sid hsid hne tr w1 hvf
    have hblank : jsTruthy (some sid) = true := by simpa [jsTruthy] using hne
    constructor
    · intro hver
      rw [hpast]
      unfold updateProvenanceStage
      rw [hrss]
      simp [hst, hsid, hblank, hvf, hver]
    · intro hver
      rw [hpast]
      unfold updateProvenanceStage
      rw [hrss]
      simp only [if_true, hst, hsid, hblank, Bool.not_true, Bool.false_eq_true, if_false,
        Option.getD_some, hvf, hver]
      exact ⟨_, _, rfl, rfl⟩

theorem commitUpdate_approved (sha256hex : String → String) (w : World) (rel : String)
    (s : Signature) (nc identity : String) (prov : UpdateProvenance) (now : String) :
    (commitUpdate sha256hex w rel s nc identity prov now).1.approved = true := rfl

theorem c6_deny_case (w : World) (rel identity : String) (prov : UpdateProvenance)
    (now detail : String) (code : DenialCode) (reason : String) (res : UpdateResult)
    (w' : World)
    (h : Except.ok (ε := String) (denyUpdate w rel identity prov now detail code reason)
      = .ok (res, w')) :
    w'.sigs = w.sigs ∧ w'.signedContents = w.signedContents ∧ w'.chains = w.chains ∧
    w'.files = w.files ∧
    ∃ delta, w'.audit = w.audit ++ delta ∧
      ∃ e, e ∈ delta ∧ e.event = .update_denied ∧ e.provenance = some prov := by
  unfold denyUpdate at h
  simp only [Except.ok.injEq, Prod.mk.injEq] at h
  obtain ⟨-, rfl⟩ := h
  exact ⟨rfl, rfl, rfl, rfl,
    [{ ts := now, event := .update_denied, file := rel, hash := none
       identity := some identity, detail := some detail, provenance := some prov }], rfl,
    { ts := now, event := .update_denied, file := rel, hash := none
      identity := some identity, detail := some detail, provenance := some prov },
    by simp, rfl, rfl⟩

theorem c6_commit_absurd {α : Prop} (sha256hex : String → String) (w : World) (rel : String)
    (s : Signature) (nc identity : String) (prov : UpdateProvenance) (now : String)
    (res : UpdateResult) (w' : World)
    (h : Except.ok (ε := String)
      (commitUpdate sha256hex w rel s nc identity prov now) = .ok (res, w'))
    (hden : res.approved = false) : α := by
  exfalso
  injection h with h2
  have happ : (commitUpdate sha256hex w rel s nc identity prov now).1.approved
      = res.approved := congrArg (fun p => (Prod.fst p).approved) h2
  rw [commitUpdate_approved, hden] at happ
  exact Bool.noConfusion happ

theorem updateProvenanceStage_c6 (sha256hex : String → String) (w : World)
    (root rel newContent : String) (options : UpdateAndSignOptions) (s : Signature)
    (policy : FilePolicy) (now : String) (res : UpdateResult) (w' : World)
    (h : updateProvenanceStage sha256hex w root rel newContent options s policy now
      = .ok (res, w'))
    (hden : res.approved = false) :
    w'.sigs = w.sigs ∧ w'.signedContents = w.signedContents ∧ w'.chains = w.chains ∧
    w'.files = w.files ∧
    ∃ delta, w'.audit = w.audit ++ delta ∧
      ∃ e, e ∈ delta ∧ e.event = .update_denied ∧
        e.provenance = some options.provenance := by
  unfold updateProvenanceStage at h
  split at h
  · split at h
    · -- signed_message
      split at h
      · exact c6_deny_case _ _ _ _ _ _ _ _ _ _ h
      · split at h
        · split at h
          · exact c6_deny_case _ _ _ _ _ _ _ _ _ _ h
          · exact c6_commit_absurd _ _ _ _ _ _ _ _ _ _ h hden
        · exact c6_commit_absurd _ _ _ _ _ _ _ _ _ _ h hden
    · -- signed_template
      split at h
      · exact c6_deny_case _ _ _ _ _ _ _ _ _ _ h
      · split at h
        · exact Except.noConfusion h
        · rename_i templateResult w1 hvf
          split at h
          · have hframe := verifyFile_frame sha256hex w root
              (options.provenance.sourceId.getD "") now templateResult w1 hvf
            obtain ⟨-, hfiles, hsigs, hsc, hchains, -, delta1, haud⟩ := hframe
            have hd := c6_deny_case _ _ _ _ _ _ _ _ _ _ h
            obtain ⟨h1, h2, h3, h4, delta2, h5, e, he, hev, hprov⟩ := hd
            refine ⟨h1.trans hsigs, h2.trans hsc, h3.trans hchains, h4.trans hfiles,
              delta1 ++ delta2, ?_, e, by simp [he], hev, hprov⟩
            rw [h5, haud, List.append_assoc]
          · exact c6_commit_absurd _ _ _ _ _ _ _ _ _ _ h hden
  · exact c6_commit_absurd _ _ _ _ _ _ _ _ _ _ h hden

theorem updateAndSign_denied_frame (sha256hex : String → String) (w : World)
    (root fp newContent : String) (options : UpdateAndSignOptions) (now : String)
    (res : UpdateResult) (w' : World)
    (h : updateAndSign sha256hex w root fp newContent options now = .ok (res, w'))
    (hden : res.approved = false) :
    w'.sigs = w.sigs ∧ w'.signedContents = w.signedContents ∧ w'.chains = w.chains ∧
    w'.files = w.files ∧
    ∃ delta, w'.audit = w.audit ++ delta ∧
      ∃ e, e ∈ delta ∧ e.event = .update_denied ∧
        e.provenance = some options.provenance := by
  cases hres : resolveContainedPath root fp with
  | error e =>
    unfold updateAndSign at h
    rw [hres] at h
    exact Except.noConfusion h
  | ok rel =>
    rw [updateAndSign_eq sha256hex w root fp newContent options now rel hres] at h
    split at h
    · exact c6_deny_case _ _ _ _ _ _ _ _ _ _ h
    · split at h
      · exact c6_deny_case _ _ _ _ _ _ _ _ _ _ h
      · split at h
        · split at h
          · exact c6_deny_case _ _ _ _ _ _ _ _ _ _ h
          · exact updateProvenanceStage_c6 _ _ _ _ _ _ _ _ _ _ _ h hden
        · exact updateProvenanceStage_c6 _ _ _ _ _ _ _ _ _ _ _ h hden

/-- C6: every denied update leaves the stored signature, signed content,
live file and update chain exactly as they were — nothing is partially
written — and appends an audit record carrying the attempted provenance,
while the ledger, unchanged on denial, records only approvals. -/
theorem updateAndSign_c6 (sha256hex : String → String) (w : World)
    (root fp newContent : String) (options : UpdateAndSignOptions) (now : String)
    (res : UpdateResult) (w' : World)
    (h : updateAndSign sha256hex w root fp newContent options now = .ok (res, w'))
    (hden : res.approved = false) :
    w'.sigs = w.sigs ∧ w'.signedContents = w.signedContents ∧ w'.chains = w.chains ∧
    w'.files = w.files ∧
    ∃ delta, w'.audit = w.audit ++ delta ∧
      ∃ e, e ∈ delta ∧ e.event = .update_denied ∧
        e.provenance = some options.provenance :=
  updateAndSign_denied_frame sha256hex w root fp newContent options now res w' h hden

/-- Witness for C6: the not_mutable denial of the C1 scenario leaves every
store untouched and appends the denial audit record with the attempted
provenance. -/
theorem updateAndSign_c6_witness :
    ∃ w', updateAndSign identityHex c1World "/proj" "soul.md" "injected"
      { identity := "evil", provenance := { sourceType := .signed_message, reason := "r" } }
      "t1" = .ok (c6DenyResult, w') ∧
      w'.sigs = c1World.sigs ∧ w'.signedContents = c1World.signedContents ∧
      w'.chains = c1World.chains ∧ w'.files = c1World.files ∧
      ∃ delta, w'.audit = c1World.audit ++ delta ∧
        ∃ e, e ∈ delta ∧ e.event = .update_denied ∧
          e.provenance = some { sourceType := .signed_message, reason := "r" } := by
  refine ⟨_, rfl, ?_⟩
  have hcall : updateAndSign identityHex c1World "/proj" "soul.md" "injected"
      { identity := "evil", provenance := { sourceType := .signed_message, reason := "r" } }
      "t1" = .ok (c6DenyResult,
        (denyUpdate c1World "soul.md" "evil"
          { sourceType := .signed_message, reason := "r" } "t1"
          "File is not mutable" .not_mutable "File policy does not allow mutations").2) := by
    have hmutf : (resolveFilePolicy c1World.config "soul.md").mutable.getD false = false := by
      decide
    rw [updateAndSign_eq identityHex c1World "/proj" "soul.md" "injected"
      { identity := "evil", provenance := { sourceType := .signed_message, reason := "r" } }
      "t1" "soul.md" (by decide)]
    simp [hmutf, c6DenyResult]
    rfl
  exact updateAndSign_c6 identityHex c1World "/proj" "soul.md" "injected"
    { identity := "evil", provenance := { sourceType := .signed_message, reason := "r" } }
    "t1" _ _ hcall rfl

/-- Witness for C2: signed-message provenance carrying a sourceId with no
content-store handle supplied passes stage five, so the update is
approved. -/
theorem updateAndSign_c2_witness :
    ∃ res w', updateAndSign identityHex c2World "/proj" "soul.md" "renewed"
      { identity := "owner:adam"
        provenance := { sourceType := .signed_message, sourceId := some "msg-1", reason := "r" } }
      "t1" = .ok (res, w') ∧ res.approved = true := by
  exact (updateAndSign_c2 identityHex c2World "/proj" "soul.md" "renewed"
    { identity := "owner:adam"
      provenance := { sourceType := .signed_message, sourceId := some "msg-1", reason := "r" } }
    "t1" "soul.md"
    { file := "soul.md", hash := "sha256:old", algorithm := "sha256"
      signedBy := "owner:adam", signedAt := "t0", contentLength := 3 }
    (by decide) (by decide) (by simp [loadSig, c2World]) (by decide) (by decide)).2.2.2.1
    rfl "msg-1" rfl (by decide) rfl

theorem traceFor_append (a : String) (t1 t2 : List (String × TraceEvt)) :
    traceFor a (t1 ++ t2) = traceFor a t1 ++ traceFor a t2 := by
  simp [traceFor]

theorem updatesOf_append (t1 t2 : List TraceEvt) :
    updatesOf (t1 ++ t2) = updatesOf t1 ++ updatesOf t2 := by
  induction t1 with
  | nil => rfl
  | cons evt rest ih =>
    cases evt <;> simp [updatesOf, ih]

theorem updatesOf_all_signed (t : List TraceEvt)
    (h : ∀ evt ∈ t, isSignedEvt evt = true) : updatesOf t = [] := by
  induction t with
  | nil => rfl
  | cons evt rest ih =>
    cases evt with
    | signed s => exact ih (fun e he => h e (by simp [he]))
    | updated e => exact absurd (h (.updated e) (by simp)) (by simp [isSignedEvt])

theorem getLast?_concat {α : Type} (l : List α) (x : α) :
    (l ++ [x]).getLast? = some x := by
  induction l with
  | nil => rfl
  | cons y ys ih =>
    cases ys with
    | nil => rfl
    | cons z zs =>
      rw [List.cons_append, List.cons_append, List.getLast?_cons_cons]
      exact ih

theorem getLast?_decomp {α : Type} (l : List α) (x : α) (h : l.getLast? = some x) :
    ∃ l', l = l' ++ [x] := by
  induction l with
  | nil => simp at h
  | cons y ys ih =>
    cases hys : ys with
    | nil =>
      rw [hys] at h
      simp [List.getLast?] at h
      exact ⟨[], by simp [h]⟩
    | cons z zs =>
      rw [hys] at h ih
      rw [List.getLast?_cons_cons] at h
      obtain ⟨l', hl⟩ := ih h
      exact ⟨y :: l', by rw [List.cons_append, ← hl]⟩

theorem append_singleton_cases {α : Type} (x : α) :
    ∀ (τ pre : List α) (c : α) (post : List α), τ ++ [x] = pre ++ c :: post →
      (post = [] ∧ c = x ∧ τ = pre) ∨ (∃ post', post = post' ++ [x] ∧ τ = pre ++ c :: post') := by
  intro τ pre
  induction pre generalizing τ with
  | nil =>
    intro c post h
    cases τ with
    | nil =>
      rw [List.nil_append, List.nil_append] at h
      injection h with h1 h2
      exact Or.inl ⟨h2.symm, h1.symm, rfl⟩
    | cons t ts =>
      rw [List.cons_append, List.nil_append] at h
      injection h with h1 h2
      exact Or.inr ⟨ts, h2.symm, by rw [List.nil_append, h1]⟩
  | cons p ps ih =>
    intro c post h
    cases τ with
    | nil =>
      rw [List.nil_append, List.cons_append] at h
      injection h with h1 h2
      exact absurd h2.symm (by simp)
    | cons t ts =>
      rw [List.cons_append, List.cons_append] at h
      injection h with h1 h2
      rcases ih ts c post h2 with ⟨h3, h4, h5⟩ | ⟨post', h6, h7⟩
      · exact Or.inl ⟨h3, h4, by rw [h5, h1]⟩
      · exact Or.inr ⟨post', h6, by rw [List.cons_append, ← h7, ← h1]⟩

theorem chainLinked_concat (entry : ChainEntry) :
    ∀ (l : List ChainEntry), chainLinked l = true →
      (∀ e, l.getLast? = some e → entry.previousHash = e.hash) →
      chainLinked (l ++ [entry]) = true := by
  intro l
  induction l with
  | nil => intro _ _; rfl
  | cons a rest ih =>
    intro hl hlast
    cases rest with
    | nil =>
      simp only [List.cons_append, List.nil_append]
      simp only [chainLinked, Bool.and_eq_true, decide_eq_true_eq]
      exact ⟨hlast a rfl, trivial⟩
    | cons b rest2 =>
      simp only [chainLinked, Bool.and_eq_true, decide_eq_true_eq] at hl
      have hrec := ih hl.2 (fun e he => hlast e (by rw [List.getLast?_cons_cons]; exact he))
      simp only [List.cons_append]
      simp only [chainLinked, Bool.and_eq_true, decide_eq_true_eq]
      exact ⟨hl.1, by simpa using hrec⟩

theorem commitUpdate_spec (sha256hex : String → String) (w : World) (rel : String)
    (s : Signature) (nc identity : String) (prov : UpdateProvenance) (now : String) :
    (commitUpdate sha256hex w rel s nc identity prov now).1 =
      { approved := true, file := rel, hash := some (digestOf sha256hex nc)
        previousHash := some s.hash
        chainLength := some (w.chains rel ++
          [commitEntry sha256hex nc identity prov now s.hash]).length } ∧
    (commitUpdate sha256hex w rel s nc identity prov now).2.chains =
      setKey w.chains rel (w.chains rel ++
        [commitEntry sha256hex nc identity prov now s.hash]) ∧
    (commitUpdate sha256hex w rel s nc identity prov now).2.sigs =
      setKey w.sigs rel (.valid (commitSig sha256hex rel nc identity now s.templateEngine)) ∧
    (commitUpdate sha256hex w rel s nc identity prov now).2.files =
      setKey w.files rel (some nc) ∧
    (commitUpdate sha256hex w rel s nc identity prov now).2.signedContents =
      setKey w.signedContents rel (some nc) ∧
    (commitUpdate sha256hex w rel s nc identity prov now).2.config = w.config ∧
    (commitUpdate sha256hex w rel s nc identity prov now).2.envIdentity = w.envIdentity := by
  refine ⟨?_, rfl, rfl, rfl, rfl, rfl, rfl⟩
  simp [commitUpdate, commitEntry, readChain, appendChainEntryW, storeSigW, setKey]

theorem c4_deny_absurd {α : Prop} (w : World) (rel identity : String)
    (prov : UpdateProvenance) (now detail : String) (code : DenialCode) (reason : String)
    (res : UpdateResult) (w' : World)
    (h : Except.ok (ε := String) (denyUpdate w rel identity prov now detail code reason)
      = .ok (res, w'))
    (happ : res.approved = true) : α := by
  exfalso
  injection h with h2
  have happ2 : (denyUpdate w rel identity prov now detail code reason).1.approved
      = res.approved := congrArg (fun p => (Prod.fst p).approved) h2
  rw [happ] at happ2
  exact Bool.noConfusion happ2

theorem c4_commit_pair (sha256hex : String → String) (w : World) (rel : String)
    (s : Signature) (nc identity : String) (prov : UpdateProvenance) (now : String)
    (res : UpdateResult) (w' : World)
    (h : Except.ok (ε := String) (commitUpdate sha256hex w rel s nc identity prov now)
      = .ok (res, w')) :
    (res, w') = commitUpdate sha256hex w rel s nc identity prov now := by
  injection h with h2
  exact h2.symm

theorem updateProvenanceStage_approved_spec (sha256hex : String → String) (w : World)
    (root rel newContent : String) (options : UpdateAndSignOptions) (s : Signature)
    (policy : FilePolicy) (now : String) (res : UpdateResult) (w' : World)
    (h : updateProvenanceStage sha256hex w root rel newContent options s policy now
      = .ok (res, w'))
    (happ : res.approved = true) :
    ∃ wmid, wmid.config = w.config ∧ wmid.files = w.files ∧ wmid.sigs = w.sigs ∧
      wmid.signedContents = w.signedContents ∧ wmid.chains = w.chains ∧
      wmid.envIdentity = w.envIdentity ∧
      (res, w') = commitUpdate sha256hex wmid rel s newContent options.identity
        options.provenance now := by
  unfold updateProvenanceStage at h
  split at h
  · split at h
    · split at h
      · exact c4_deny_absurd _ _ _ _ _ _ _ _ _ _ h happ
      · split at h
        · split at h
          · exact c4_deny_absurd _ _ _ _ _ _ _ _ _ _ h happ
          · exact ⟨w, rfl, rfl, rfl, rfl, rfl, rfl, c4_commit_pair _ _ _ _ _ _ _ _ _ _ h⟩
        · exact ⟨w, rfl, rfl, rfl, rfl, rfl, rfl, c4_commit_pair _ _ _ _ _ _ _ _ _ _ h⟩
    · split at h
      · exact c4_deny_absurd _ _ _ _ _ _ _ _ _ _ h happ
      · split at h
        · exact Except.noConfusion h
        · rename_i templateResult w1 hvf
          split at h
          · exact c4_deny_absurd _ _ _ _ _ _ _ _ _ _ h happ
          · obtain ⟨hc, hf, hs, hsc, hch, he, -⟩ := verifyFile_frame sha256hex w root
              (options.provenance.sourceId.getD "") now templateResult w1 hvf
            exact ⟨w1, hc, hf, hs, hsc, hch, he, c4_commit_pair _ _ _ _ _ _ _ _ _ _ h⟩
  · exact ⟨w, rfl, rfl, rfl, rfl, rfl, rfl, c4_commit_pair _ _ _ _ _ _ _ _ _ _ h⟩

theorem updateAndSign_approved_spec (sha256hex : String → String) (w : World)
    (root fp newContent : String) (options : UpdateAndSignOptions) (now : String)
    (res : UpdateResult) (w' : World)
    (h : updateAndSign sha256hex w root fp newContent options now = .ok (res, w'))
    (happ : res.approved = true) :
    ∃ rel s wmid, resolveContainedPath root fp = .ok rel ∧
      (loadSig w rel).signature = some s ∧
      wmid.config = w.config ∧ wmid.files = w.files ∧ wmid.sigs = w.sigs ∧
      wmid.signedContents = w.signedContents ∧ wmid.chains = w.chains ∧
      wmid.envIdentity = w.envIdentity ∧
      (res, w') = commitUpdate sha256hex wmid rel s newContent options.identity
        options.provenance now := by
  cases hres : resolveContainedPath root fp with
  | error e =>
    unfold updateAndSign at h
    rw [hres] at h
    exact Except.noConfusion h
  | ok rel =>
    rw [updateAndSign_eq sha256hex w root fp newContent options now rel hres] at h
    split at h
    · exact c4_deny_absurd _ _ _ _ _ _ _ _ _ _ h happ
    · split at h
      · exact c4_deny_absurd _ _ _ _ _ _ _ _ _ _ h happ
      · rename_i existingSig hsig
        split at h
        · split at h
          · exact c4_deny_absurd _ _ _ _ _ _ _ _ _ _ h happ
          · obtain ⟨wmid, hrest⟩ := updateProvenanceStage_approved_spec sha256hex w root rel
              newContent options existingSig (resolveFilePolicy w.config rel) now res w' h happ
            exact ⟨rel, existingSig, wmid, rfl, hsig, hrest⟩
        · obtain ⟨wmid, hrest⟩ := updateProvenanceStage_approved_spec sha256hex w root rel
            newContent options existingSig (resolveFilePolicy w.config rel) now res w' h happ
          exact ⟨rel, existingSig, wmid, rfl, hsig, hrest⟩

theorem signFile_spec (sha256hex : String → String) (w : World) (root fp : String)
    (idOpt engOpt : Option String) (now : String) (sig : Signature) (w' : World)
    (h : signFile sha256hex w root fp idOpt engOpt now = .ok (sig, w')) :
    ∃ rel content, resolveContainedPath root fp = .ok rel ∧ sig.file = rel ∧
      w.files rel = some content ∧ sig.hash = digestOf sha256hex content ∧
      w'.sigs = setKey w.sigs rel (.valid sig) ∧
      w'.signedContents = setKey w.signedContents rel (some content) ∧
      w'.files = w.files ∧ w'.chains = w.chains ∧ w'.config = w.config ∧
      w'.envIdentity = w.envIdentity := by
  unfold signFile at h
  cases hres : resolveContainedPath root fp with
  | error e => rw [hres] at h; exact Except.noConfusion h
  | ok rel =>
    rw [hres] at h
    simp only at h
    cases hf : w.files rel with
    | none =>
      simp only [hf] at h
      exact Except.noConfusion h
    | some content =>
      simp only [hf, Except.ok.injEq, Prod.mk.injEq] at h
      obtain ⟨rfl, rfl⟩ := h
      exact ⟨rel, content, rfl, rfl, hf, rfl, rfl, rfl, rfl, rfl, rfl, rfl⟩

theorem setKey_eq {α : Type} (m : String → α) (k : String) (v : α) :
    setKey m k v k = v := by
  simp [setKey]

theorem setKey_ne {α : Type} (m : String → α) (k : String) (v : α) (x : String)
    (h : x ≠ k) : setKey m k v x = m x := by
  simp [setKey, h]

theorem loadSig_valid_iff (w : World) (p : String) (s : Signature)
    (h : (loadSig w p).signature = some s) : w.sigs p = .valid s := by
  cases hs : w.sigs p <;> simp_all [loadSig]

theorem updatesOf_getLast (τ : List TraceEvt) (e : ChainEntry)
    (h : τ.getLast? = some (.updated e)) : (updatesOf τ).getLast? = some e := by
  obtain ⟨l', rfl⟩ := getLast?_decomp τ _ h
  rw [updatesOf_append]
  simp [updatesOf, getLast?_concat]

theorem mem_of_getLast? {α : Type} (l : List α) (x : α) (h : l.getLast? = some x) :
    x ∈ l := by
  obtain ⟨l', rfl⟩ := getLast?_decomp l x h
  simp

theorem ArtifactInv_congr (sha256hex : String → String) (w w' : World) (a : String)
    (τ : List TraceEvt) (h1 : w'.chains a = w.chains a) (h2 : w'.sigs a = w.sigs a)
    (h3 : w'.files a = w.files a) (hJ : ArtifactInv sha256hex w a τ) :
    ArtifactInv sha256hex w' a τ := by
  obtain ⟨l, lk, ss, hm, wf⟩ := hJ
  refine ⟨by rw [h1]; exact l, by rw [h1]; exact lk, ?_, ?_, wf⟩
  · cases hτ : τ.getLast? with
    | none =>
      simp only [hτ] at ss ⊢
      rw [h2]; exact ss
    | some evt =>
      cases evt with
      | signed s =>
        simp only [hτ] at ss ⊢
        rw [h2, h3]; exact ss
      | updated e =>
        simp only [hτ] at ss ⊢
        rw [h2, h3]; exact ss
  · intro e he
    rw [h1] at he
    obtain ⟨s, hs1, hs2⟩ := hm e he
    exact ⟨s, by rw [h2]; exact hs1, hs2⟩

theorem artifactInv_init (sha256hex : String → String) (config : SigConfig)
    (files0 : String → Option String) (a : String) :
    ArtifactInv sha256hex (initialWorld config files0) a [] := by
  refine ⟨rfl, rfl, rfl, ?_, ?_⟩
  · intro e he
    simp [initialWorld] at he
  · intro pre e post h _
    exact absurd h.symm (by simp)

theorem getLast?_none {α : Type} (l : List α) (h : l.getLast? = none) : l = [] := by
  cases l with
  | nil => rfl
  | cons x xs => simp at h

theorem artifactInv_sign_self (sha256hex : String → String) (w w' : World) (a : String)
    (τ : List TraceEvt) (sig : Signature) (content : String)
    (hInv : ArtifactInv sha256hex w a τ)
    (hfc : w.files a = some content) (hh : sig.hash = digestOf sha256hex content)
    (hsigs : w'.sigs = setKey w.sigs a (.valid sig))
    (hfiles : w'.files = w.files) (hchains : w'.chains = w.chains) :
    ArtifactInv sha256hex w' a (τ ++ [.signed sig]) := by
  obtain ⟨hled, hlk, hss, hhm, hwf⟩ := hInv
  have hca : w'.chains a = w.chains a := congrFun hchains a
  have hsa : w'.sigs a = .valid sig := by rw [hsigs]; exact setKey_eq _ _ _
  refine ⟨?_, ?_, ?_, ?_, ?_⟩
  · rw [hca, hled, updatesOf_append]
    simp [updatesOf]
  · rw [hca]; exact hlk
  · simp only [getLast?_concat]
    exact ⟨hsa, content, by rw [hfiles]; exact hfc, hh.symm⟩
  · intro e he
    rw [hca] at he
    refine ⟨sig, hsa, ?_⟩
    cases hτ : τ.getLast? with
    | none =>
      rw [getLast?_none τ hτ] at hled
      rw [hled] at he
      simp [updatesOf] at he
    | some evt =>
      cases evt with
      | signed s =>
        simp only [hτ] at hss
        obtain ⟨hvs, c, hc, hd⟩ := hss
        obtain ⟨s0, hs0, hs0h⟩ := hhm e he
        rw [hvs] at hs0
        injection hs0 with hs0
        rw [hfc] at hc
        injection hc with hc
        rw [hh, hc, hd, hs0]
        exact hs0h
      | updated e2 =>
        simp only [hτ] at hss
        obtain ⟨-, c, hc, hd⟩ := hss
        have hlast2 : (w.chains a).getLast? = some e2 := by
          rw [hled]; exact updatesOf_getLast τ e2 hτ
        rw [he] at hlast2
        injection hlast2 with he2
        rw [hfc] at hc
        injection hc with hc
        rw [hh, hc, hd, he2]
  · intro pre e post hdec hsigall
    rcases append_singleton_cases _ τ pre _ post hdec with ⟨-, hce, -⟩ | ⟨post', -, hτ⟩
    · exact TraceEvt.noConfusion hce
    · exact hwf pre e post' hτ hsigall

theorem artifactInv_update_self (sha256hex : String → String) (w w' : World) (a : String)
    (τ : List TraceEvt) (s : Signature) (nc identity : String) (prov : UpdateProvenance)
    (now : String) (hInv : ArtifactInv sha256hex w a τ) (hs : w.sigs a = .valid s)
    (hchains : w'.chains = setKey w.chains a
      (w.chains a ++ [commitEntry sha256hex nc identity prov now s.hash]))
    (hsigs : w'.sigs = setKey w.sigs a
      (.valid (commitSig sha256hex a nc identity now s.templateEngine)))
    (hfiles : w'.files = setKey w.files a (some nc)) :
    ArtifactInv sha256hex w' a
      (τ ++ [.updated (commitEntry sha256hex nc identity prov now s.hash)]) := by
  obtain ⟨hled, hlk, hss, hhm, hwf⟩ := hInv
  have hca : w'.chains a
      = w.chains a ++ [commitEntry sha256hex nc identity prov now s.hash] := by
    rw [hchains]; exact setKey_eq _ _ _
  have hsa : w'.sigs a = .valid (commitSig sha256hex a nc identity now s.templateEngine) := by
    rw [hsigs]; exact setKey_eq _ _ _
  have hfa : w'.files a = some nc := by rw [hfiles]; exact setKey_eq _ _ _
  have hprev : ∀ e, (w.chains a).getLast? = some e →
      (commitEntry sha256hex nc identity prov now s.hash).previousHash = e.hash := by
    intro e he
    obtain ⟨s0, hs0, hs0h⟩ := hhm e he
    rw [hs] at hs0
    injection hs0 with hs0
    show s.hash = e.hash
    rw [hs0]
    exact hs0h
  refine ⟨?_, ?_, ?_, ?_, ?_⟩
  · rw [hca, hled, updatesOf_append]
    simp [updatesOf]
  · rw [hca]
    exact chainLinked_concat _ _ hlk hprev
  · simp only [getLast?_concat]
    exact ⟨⟨commitSig sha256hex a nc identity now s.templateEngine, hsa, rfl⟩, nc, hfa, rfl⟩
  · intro e he
    rw [hca, getLast?_concat] at he
    injection he with he
    refine ⟨commitSig sha256hex a nc identity now s.templateEngine, hsa, ?_⟩
    rw [← he]
    rfl
  · intro pre e post hdec hsigall
    rcases append_singleton_cases _ τ pre _ post hdec with ⟨-, hce, hτpre⟩ | ⟨post', -, hτ⟩
    · injection hce with hce
      cases hτl : τ.getLast? with
      | none =>
        rw [getLast?_none τ hτl] at hss
        simp only [List.getLast?_nil] at hss
        rw [hs] at hss
        exact StoredSig.noConfusion hss
      | some evt =>
        cases evt with
        | signed s2 =>
          simp only [hτl] at hss
          obtain ⟨hvs2, -⟩ := hss
          rw [hs] at hvs2
          injection hvs2 with hvs2
          obtain ⟨pre2, hpre2⟩ := getLast?_decomp τ _ hτl
          refine ⟨s2, pre2, ?_, ?_⟩
          · rw [← hτpre]
            exact hpre2
          · rw [hce]
            show s.hash = s2.hash
            rw [hvs2]
        | updated e2 =>
          exact absurd (hsigall _ (hτpre ▸ mem_of_getLast? τ _ hτl)) (by simp [isSignedEvt])
    · exact hwf pre e post' hτ hsigall

theorem applyOp_inv (sha256hex : String → String) (root : String) (w : World) (op : Op)
    (a : String) (τ : List TraceEvt) (hInv : ArtifactInv sha256hex w a τ) :
    ArtifactInv sha256hex (applyOp sha256hex root w op).1 a
      (τ ++ traceFor a (applyOp sha256hex root w op).2) := by
  cases op with
  | signOp fp idOpt engOpt now =>
    cases hsf : signFile sha256hex w root fp idOpt engOpt now with
    | error e =>
      have happly : applyOp sha256hex root w (.signOp fp idOpt engOpt now) = (w, []) := by
        simp [applyOp, hsf]
      rw [happly]
      simpa [traceFor] using hInv
    | ok pr =>
      obtain ⟨sig, w'⟩ := pr
      obtain ⟨rel, content, -, hfile, hfc, hh, hsigs, -, hfiles, hchains, -, -⟩ :=
        signFile_spec sha256hex w root fp idOpt engOpt now sig w' hsf
      have happly : applyOp sha256hex root w (.signOp fp idOpt engOpt now)
          = (w', [(rel, .signed sig)]) := by
        simp [applyOp, hsf, hfile]
      rw [happly]
      by_cases hrel : rel = a
      · subst hrel
        have htr : traceFor rel [(rel, .signed sig)] = [.signed sig] := by
          simp [traceFor]
        rw [htr]
        exact artifactInv_sign_self sha256hex w w' rel τ sig content hInv hfc hh hsigs
          hfiles hchains
      · have htr : τ ++ traceFor a [(rel, .signed sig)] = τ := by
          simp [traceFor, hrel]
        rw [htr]
        refine ArtifactInv_congr sha256hex w w' a τ (congrFun hchains a) ?_
          (congrFun hfiles a) hInv
        rw [hsigs]
        exact setKey_ne _ _ _ _ (fun hxa => hrel hxa.symm)
  | updateOp fp nc options now =>
    cases hu : updateAndSign sha256hex w root fp nc options now with
    | error e =>
      have happly : applyOp sha256hex root w (.updateOp fp nc options now) = (w, []) := by
        simp [applyOp, hu]
      rw [happly]
      simpa [traceFor] using hInv
    | ok pr =>
      obtain ⟨res, w'⟩ := pr
      by_cases happ : res.approved = true
      · obtain ⟨rel, s, wmid, -, hload, -, hmf, hms, -, hmch, -, hcommit⟩ :=
          updateAndSign_approved_spec sha256hex w root fp nc options now res w' hu happ
        have hw' : w' = (commitUpdate sha256hex wmid rel s nc options.identity
            options.provenance now).2 := congrArg Prod.snd hcommit
        have hres1 : res = (commitUpdate sha256hex wmid rel s nc options.identity
            options.provenance now).1 := congrArg Prod.fst hcommit
        obtain ⟨hspec1, hspec2, hspec3, hspec4, -, -, -⟩ := commitUpdate_spec sha256hex wmid
          rel s nc options.identity options.provenance now
        have hresfile : res.file = rel := by rw [hres1, hspec1]
        have hchainsAll : w'.chains = setKey wmid.chains rel (wmid.chains rel
            ++ [commitEntry sha256hex nc options.identity options.provenance now s.hash]) := by
          rw [hw']; exact hspec2
        have hlast : (w'.chains rel).getLast?
            = some (commitEntry sha256hex nc options.identity options.provenance now s.hash) := by
          rw [hchainsAll, setKey_eq, getLast?_concat]
        have happly : applyOp sha256hex root w (.updateOp fp nc options now)
            = (w', [(rel, .updated (commitEntry sha256hex nc options.identity
                options.provenance now s.hash))]) := by
          simp [applyOp, hu, happ, hresfile, hlast]
        rw [happly]
        have hs : w.sigs rel = .valid s := loadSig_valid_iff w rel s hload
        by_cases hrel : rel = a
        · subst hrel
          have htr : traceFor rel [(rel, .updated (commitEntry sha256hex nc options.identity
              options.provenance now s.hash))] = [.updated (commitEntry sha256hex nc
              options.identity options.provenance now s.hash)] := by
            simp [traceFor]
          rw [htr]
          refine artifactInv_update_self sha256hex w w' rel τ s nc options.identity
            options.provenance now hInv hs ?_ ?_ ?_
          · rw [hchainsAll, hmch]
          · rw [hw', hspec3, hms]
          · rw [hw', hspec4, hmf]
        · have htr : τ ++ traceFor a [(rel, .updated (commitEntry sha256hex nc options.identity
              options.provenance now s.hash))] = τ := by
            simp [traceFor, hrel]
          rw [htr]
          refine ArtifactInv_congr sha256hex w w' a τ ?_ ?_ ?_ hInv
          · rw [hchainsAll, setKey_ne _ _ _ _ (fun hxa => hrel hxa.symm)]
            exact congrFun hmch a
          · rw [hw', hspec3, setKey_ne _ _ _ _ (fun hxa => hrel hxa.symm)]
            exact congrFun hms a
          · rw [hw', hspec4, setKey_ne _ _ _ _ (fun hxa => hrel hxa.symm)]
            exact congrFun hmf a
      · have hden : res.approved = false := by
          simp only [Bool.not_eq_true] at happ
          exact happ
        obtain ⟨hsigs, -, hchains, hfiles, -⟩ :=
          updateAndSign_denied_frame sha256hex w root fp nc options now res w' hu hden
        have happly : applyOp sha256hex root w (.updateOp fp nc options now) = (w', []) := by
          simp [applyOp, hu, hden]
        rw [happly]
        have htr : τ ++ traceFor a ([] : List (String × TraceEvt)) = τ := by
          simp [traceFor]
        rw [htr]
        exact ArtifactInv_congr sha256hex w w' a τ (congrFun hchains a) (congrFun hsigs a)
          (congrFun hfiles a) hInv

theorem runOps_inv (sha256hex : String → String) (root a : String) :
    ∀ (ops : List Op) (w : World) (τ : List TraceEvt), ArtifactInv sha256hex w a τ →
      ArtifactInv sha256hex (runOps sha256hex root w ops).1 a
        (τ ++ traceFor a (runOps sha256hex root w ops).2) := by
  intro ops
  induction ops with
  | nil =>
    intro w τ h
    simpa [runOps, traceFor] using h
  | cons op rest ih =>
    intro w τ h
    have h2 := ih (applyOp sha256hex root w op).1
      (τ ++ traceFor a (applyOp sha256hex root w op).2)
      (applyOp_inv sha256hex root w op a τ h)
    show ArtifactInv sha256hex (runOps sha256hex root (applyOp sha256hex root w op).1 rest).1 a
      (τ ++ traceFor a ((applyOp sha256hex root w op).2
        ++ (runOps sha256hex root (applyOp sha256hex root w op).1 rest).2))
    rw [traceFor_append, ← List.append_assoc]
    exact h2

theorem applyOp_chains_appendOnly (sha256hex : String → String) (root : String) (w : World)
    (op : Op) (b : String) :
    ∃ tail, (applyOp sha256hex root w op).1.chains b = w.chains b ++ tail := by
  cases op with
  | signOp fp idOpt engOpt now =>
    cases hsf : signFile sha256hex w root fp idOpt engOpt now with
    | error e => exact ⟨[], by simp [applyOp, hsf]⟩
    | ok pr =>
      obtain ⟨sig, w'⟩ := pr
      obtain ⟨rel, content, -, -, -, -, -, -, -, hchains, -, -⟩ :=
        signFile_spec sha256hex w root fp idOpt engOpt now sig w' hsf
      exact ⟨[], by simp [applyOp, hsf, hchains]⟩
  | updateOp fp nc options now =>
    cases hu : updateAndSign sha256hex w root fp nc options now with
    | error e => exact ⟨[], by simp [applyOp, hu]⟩
    | ok pr =>
      obtain ⟨res, w'⟩ := pr
      have h1 : (applyOp sha256hex root w (.updateOp fp nc options now)).1 = w' := by
        simp only [applyOp, hu]
        by_cases happ : res.approved = true
        · rw [if_pos happ]
          cases hl : (w'.chains res.file).getLast? with
          | none => rfl
          | some e => rfl
        · rw [if_neg happ]
      rw [h1]
      by_cases happ : res.approved = true
      · obtain ⟨rel, s, wmid, -, -, -, -, -, -, hmch, -, hcommit⟩ :=
          updateAndSign_approved_spec sha256hex w root fp nc options now res w' hu happ
        have hw' : w' = (commitUpdate sha256hex wmid rel s nc options.identity
            options.provenance now).2 := congrArg Prod.snd hcommit
        obtain ⟨-, hspec2, -, -, -, -, -⟩ := commitUpdate_spec sha256hex wmid rel s nc
          options.identity options.provenance now
        by_cases hb : b = rel
        · subst hb
          exact ⟨[commitEntry sha256hex nc options.identity options.provenance now s.hash], by
            rw [hw', hspec2, setKey_eq, congrFun hmch b]⟩
        · exact ⟨[], by
            rw [hw', hspec2, setKey_ne _ _ _ _ hb, congrFun hmch b, List.append_nil]⟩
      · have hden : res.approved = false := by
          simp only [Bool.not_eq_true] at happ
          exact happ
        obtain ⟨-, -, hchains, -, -⟩ :=
          updateAndSign_denied_frame sha256hex w root fp nc options now res w' hu hden
        exact ⟨[], by rw [congrFun hchains b, List.append_nil]⟩

theorem updateAndSign_append_spec (sha256hex : String → String) (w : World)
    (root fp nc : String) (options : UpdateAndSignOptions) (now : String)
    (res : UpdateResult) (w' : World)
    (h : updateAndSign sha256hex w root fp nc options now = .ok (res, w'))
    (happ : res.approved = true) :
    ∃ rel s entry, resolveContainedPath root fp = .ok rel ∧
      (loadSig w rel).signature = some s ∧
      w'.chains rel = w.chains rel ++ [entry] ∧
      entry.previousHash = s.hash ∧ entry.hash = digestOf sha256hex nc ∧
      ∀ b, b ≠ rel → w'.chains b = w.chains b := by
  obtain ⟨rel, s, wmid, hres, hload, -, -, -, -, hmch, -, hcommit⟩ :=
    updateAndSign_approved_spec sha256hex w root fp nc options now res w' h happ
  have hw' : w' = (commitUpdate sha256hex wmid rel s nc options.identity
      options.provenance now).2 := congrArg Prod.snd hcommit
  obtain ⟨-, hspec2, -, -, -, -, -⟩ := commitUpdate_spec sha256hex wmid rel s nc
    options.identity options.provenance now
  refine ⟨rel, s, commitEntry sha256hex nc options.identity options.provenance now s.hash,
    hres, hload, ?_, rfl, rfl, ?_⟩
  · rw [hw', hspec2, setKey_eq, congrFun hmch rel]
  · intro b hb
    rw [hw', hspec2, setKey_ne _ _ _ _ hb, congrFun hmch b]

/-- C4: over any run of sign and update operations from a fresh world, an
artifact's ledger holds exactly its approved updates in order and all
adjacent links hold; every approved update appends exactly one chain entry
whose previousHash is the digest of the head signature read during
authorization and whose hash is the digest of the new content; every
operation only ever appends to a ledger; and the entry following an
all-sign prefix of the history is entry 0 of the ledger and its
previousHash is the digest recorded by the most recent prior sign. -/
theorem chainLedger_c4 (sha256hex : String → String) (config : SigConfig)
    (files0 : String → Option String) (root : String) (ops : List Op) (a : String)
    (w : World) (tr : List (String × TraceEvt))
    (hrun : runOps sha256hex root (initialWorld config files0) ops = (w, tr)) :
    w.chains a = updatesOf (traceFor a tr) ∧
    chainLinked (w.chains a) = true ∧
    (∀ (wpre wpost : World) (fp nc : String) (options : UpdateAndSignOptions) (now : String)
      (res : UpdateResult),
      updateAndSign sha256hex wpre root fp nc options now = .ok (res, wpost) →
      res.approved = true →
      ∃ rel s entry, resolveContainedPath root fp = .ok rel ∧
        (loadSig wpre rel).signature = some s ∧
        wpost.chains rel = wpre.chains rel ++ [entry] ∧
        entry.previousHash = s.hash ∧ entry.hash = digestOf sha256hex nc ∧
        ∀ b, b ≠ rel → wpost.chains b = wpre.chains b) ∧
    (∀ (wpre : World) (op : Op) (b : String), ∃ tail,
      (applyOp sha256hex root wpre op).1.chains b = wpre.chains b ++ tail) ∧
    (∀ pre e post, traceFor a tr = pre ++ .updated e :: post →
      (∀ evt ∈ pre, isSignedEvt evt = true) →
      w.chains a = e :: updatesOf post ∧
      ∃ s pre2, pre = pre2 ++ [.signed s] ∧ e.previousHash = s.hash) := by
  have hinv := runOps_inv sha256hex root a ops (initialWorld config files0) []
    (artifactInv_init sha256hex config files0 a)
  rw [hrun] at hinv
  simp only [List.nil_append] at hinv
  have hled : w.chains a = updatesOf (traceFor a tr) := hinv.ledger
  have hlk : chainLinked (w.chains a) = true := hinv.linked
  have hwf : traceWf (traceFor a tr) := hinv.wf
  refine ⟨hled, hlk, ?_, ?_, ?_⟩
  · intro wpre wpost fp nc options now res h happ
    exact updateAndSign_append_spec sha256hex wpre root fp nc options now res wpost h happ
  · intro wpre op b
    exact applyOp_chains_appendOnly sha256hex root wpre op b
  · intro pre e post hdec hsigall
    refine ⟨?_, hwf pre e post hdec hsigall⟩
    rw [hled, hdec, updatesOf_append, updatesOf_all_signed pre hsigall]
    simp [updatesOf]

/-- Witness for C4: on the concrete run that signs soul.md and then
commits one approved update, the instantiated claim holds, and the run
indeed produces a two-event history with a one-entry linked ledger. -/
theorem chainLedger_c4_witness :
    (c4Run.1.chains "soul.md" = updatesOf (traceFor "soul.md" c4Run.2) ∧
      chainLinked (c4Run.1.chains "soul.md") = true ∧
      (∀ (wpre wpost : World) (fp nc : String) (options : UpdateAndSignOptions) (now : String)
        (res : UpdateResult),
        updateAndSign identityHex wpre "/proj" fp nc options now = .ok (res, wpost) →
        res.approved = true →
        ∃ rel s entry, resolveContainedPath "/proj" fp = .ok rel ∧
          (loadSig wpre rel).signature = some s ∧
          wpost.chains rel = wpre.chains rel ++ [entry] ∧
          entry.previousHash = s.hash ∧ entry.hash = digestOf identityHex nc ∧
          ∀ b, b ≠ rel → wpost.chains b = wpre.chains b) ∧
      (∀ (wpre : World) (op : Op) (b : String), ∃ tail,
        (applyOp identityHex "/proj" wpre op).1.chains b = wpre.chains b ++ tail) ∧
      (∀ pre e post, traceFor "soul.md" c4Run.2 = pre ++ .updated e :: post →
        (∀ evt ∈ pre, isSignedEvt evt = true) →
        c4Run.1.chains "soul.md" = e :: updatesOf post ∧
        ∃ s pre2, pre = pre2 ++ [.signed s] ∧ e.previousHash = s.hash)) ∧
    (traceFor "soul.md" c4Run.2).length = 2 ∧
    (c4Run.1.chains "soul.md").length = 1 :=
  ⟨chainLedger_c4 identityHex c4Config c4Files "/proj" c4Ops "soul.md" c4Run.1 c4Run.2 rfl,
    by decide, by decide⟩

/-- Witness for C8: with an unparseable record stored for soul.md,
checkFile reports the corrupted status; on the empty world it reports
unsigned; and with a record whose bytes parse to null it reports unsigned
as well. -/
theorem loadSig_c8_witness :
    checkFile identityHex
      { initialWorld { files := none } (fun _ => none) with
          sigs := fun p => if p = "soul.md" then .corruptBytes else .absent }
      "/proj" "soul.md" = .ok { file := "soul.md", status := .corrupted } ∧
    checkFile identityHex (initialWorld { files := none } (fun _ => none))
      "/proj" "soul.md" = .ok { file := "soul.md", status := .unsigned } ∧
    checkFile identityHex c8NullWorld "/proj" "soul.md"
      = .ok { file := "soul.md", status := .unsigned } := by
  refine ⟨?_, ?_, ?_⟩
  · exact loadSig_c8.2.2.2.1 identityHex _ "/proj" "soul.md" "soul.md" (by decide) (by simp)
  · exact loadSig_c8.2.2.2.2.1 identityHex _ "/proj" "soul.md" "soul.md" (by decide) rfl
  · exact loadSig_c8.2.2.2.2.2.2.2 identityHex _ "/proj" "soul.md" "soul.md" (by decide)
      (by decide)

end Sig
